import Mathlib

/-!
Verification development for the KBAI persistence layer
(`app/storage_interfaces.py`, `app/storage.py`, `app/db_interfaces.py`).

The Python storage backends are shallowly embedded as pure Lean functions:
* per-project collections (the local JSON files and the relational tables)
  become explicit lists that are passed in and returned;
* floating-point vector components become exact rationals, and comparisons
  against cosine similarities (which involve square roots) are decided
  exactly by sign analysis and cross multiplication of squares;
* randomly generated identifiers (`uuid.uuid4()`) become explicit parameters
  or generator functions supplied by the caller;
* wall-clock values (`datetime.utcnow()`) become explicit parameters.
-/

namespace KBAI

/-- Dot product of two vectors, `sum(x * y for x, y in zip(a, b))` in
`LocalVectorStorage.search_similar.cosine_similarity`. -/
def dot (a b : List ℚ) : ℚ := (List.zipWith (· * ·) a b).sum

/-- Squared magnitude of a vector: `sum(x * x for x in a)`, whose square root
is `magnitude_a` in `cosine_similarity`. -/
def magSq (a : List ℚ) : ℚ := (a.map (fun x => x * x)).sum

/-- The exact similarity annotation attached to a search result: the pair of
vectors whose cosine similarity the Python code stores as the float
`result['similarity']`.  The real value it denotes is given by `IsSimVal`. -/
structure SimScore where
  qv : List ℚ
  ev : List ℚ
deriving DecidableEq

/-- Numerator of the cosine similarity: the dot product. -/
def SimScore.num (s : SimScore) : ℚ := dot s.qv s.ev

/-- Squared magnitude of the query vector of a score. -/
def SimScore.maq (s : SimScore) : ℚ := magSq s.qv

/-- Squared magnitude of the embedding vector of a score. -/
def SimScore.mab (s : SimScore) : ℚ := magSq s.ev

/-- Product of the two squared magnitudes: the square of the denominator of
the cosine similarity. -/
def SimScore.den (s : SimScore) : ℚ := s.maq * s.mab

/-- `IsSimVal s v` says the real number `v` is the cosine similarity denoted
by `s`: `dot_product / (magnitude_a * magnitude_b)`, and `0` when either
magnitude is zero, exactly as `cosine_similarity` computes it. -/
def IsSimVal (s : SimScore) (v : ℝ) : Prop :=
  v = if s.maq = 0 ∨ s.mab = 0 then 0
      else (s.num : ℝ) / (Real.sqrt (s.maq : ℝ) * Real.sqrt (s.mab : ℝ))

/-- Exact decision of `similarity >= threshold` (the Python float comparison
in `search_similar`), by sign analysis and comparing squares: for a positive
denominator `d = sqrt s.den`, `t ≤ num / d` iff `t * d ≤ num`. -/
def simGeQ (s : SimScore) (t : ℚ) : Bool :=
  if s.maq = 0 ∨ s.mab = 0 then decide (t ≤ 0)
  else if 0 ≤ t then decide (0 ≤ s.num) && decide (t ^ 2 * s.den ≤ s.num ^ 2)
  else decide (0 ≤ s.num) || decide (s.num ^ 2 ≤ t ^ 2 * s.den)

/-- Exact decision of `similarity x >= similarity y`, the comparison made by
`results.sort(key=lambda x: x['similarity'], reverse=True)`. -/
def simGeS (x y : SimScore) : Bool :=
  if x.maq = 0 ∨ x.mab = 0 then
    (if y.maq = 0 ∨ y.mab = 0 then true else decide (y.num ≤ 0))
  else if y.maq = 0 ∨ y.mab = 0 then decide (0 ≤ x.num)
  else if 0 ≤ x.num then
    (if 0 ≤ y.num then decide (y.num ^ 2 * x.den ≤ x.num ^ 2 * y.den) else true)
  else
    (if 0 ≤ y.num then false else decide (x.num ^ 2 * y.den ≤ y.num ^ 2 * x.den))

/-- Comparator for pgvector's `ORDER BY embedding <=> query` (cosine distance
ascending).  The cosine distance is `1 - similarity`, so
`dist x ≤ dist y` holds iff `similarity y ≤ similarity x`; the lemma
`cosDistLe_iff` states this against the real distance values. -/
def cosDistLe (x y : SimScore) : Bool := simGeS x y

/-- One embedding record, as stored in the per-project `embeddings.json` array
by `LocalVectorStorage` (the dict built in `store_embedding`).  Metadata is an
association list standing for the free-form JSON mapping. -/
structure EmbRec where
  id : String
  project_id : String
  content_type : String
  content_id : String
  title : String
  content : String
  embedding : List ℚ
  metadata : List (String × String)
deriving DecidableEq

/-- The similarity annotation `cosine_similarity(query_embedding, emb['embedding'])`. -/
def simScore (query : List ℚ) (e : EmbRec) : SimScore := ⟨query, e.embedding⟩

/-- `LocalVectorStorage.store_embedding`: drop any record with the same
`(content_type, content_id)` natural key, then append the new record.  The
fresh `uuid.uuid4()` is the explicit `newId` parameter; the returned string is
the new identifier. -/
def store_embedding (embs : List EmbRec) (project_id content_type content_id title content : String)
    (embedding : List ℚ) (metadata : List (String × String)) (newId : String) :
    String × List EmbRec :=
  let kept := embs.filter fun e => !(e.content_type == content_type && e.content_id == content_id)
  (newId, kept ++ [⟨newId, project_id, content_type, content_id, title, content, embedding, metadata⟩])

/-- `LocalVectorStorage.search_similar`: annotate every stored record with its
similarity to the query, keep those with `similarity >= threshold`, sort
descending by similarity (Python's `list.sort` is stable; `List.mergeSort` is
the stable sort in Lean) and return the first `limit` results. -/
def search_similar (embs : List EmbRec) (query : List ℚ) (limit : Nat) (threshold : ℚ) :
    List (EmbRec × SimScore) :=
  let results := (embs.map fun e => (e, simScore query e)).filter fun p => simGeQ p.2 threshold
  (results.mergeSort fun p q => simGeS p.2 q.2).take limit

/-- `LocalVectorStorage.delete_embedding`: remove records matching the natural
key; report whether the collection shrank. -/
def delete_embedding (embs : List EmbRec) (content_type content_id : String) :
    Bool × List EmbRec :=
  let kept := embs.filter fun e => !(e.content_type == content_type && e.content_id == content_id)
  if kept.length < embs.length then (true, kept) else (false, embs)

/-- `LocalVectorStorage.get_embeddings`: all records, optionally filtered by
content type (a `None`/falsy `content_type` applies no filter). -/
def get_embeddings (embs : List EmbRec) (content_type : Option String) : List EmbRec :=
  match content_type with
  | some ct => embs.filter fun e => e.content_type == ct
  | none => embs

/-- One row of the `vector_embeddings` table used by `PostgreSQLVectorStorage`;
`id` is the synthetic serial key. -/
structure PgEmbRow where
  id : Nat
  project_id : String
  content_type : String
  content_id : String
  title : String
  content : String
  embedding : List ℚ
  metadata : List (String × String)
deriving DecidableEq

/-- View of a `vector_embeddings` row as a local embedding record (same data,
string identifier), used to state parity between the two backends. -/
def PgEmbRow.toEmb (r : PgEmbRow) : EmbRec :=
  ⟨toString r.id, r.project_id, r.content_type, r.content_id, r.title, r.content,
    r.embedding, r.metadata⟩

/-- The similarity annotation of a row, `1 - (embedding <=> query)` in the SQL
of `PostgreSQLVectorStorage.search_similar`.  Written over the exact rational
model: the pgvector cosine distance is `1 - cosine_similarity`, so
`1 - distance` is the cosine similarity itself. -/
def pgSimScore (query : List ℚ) (r : PgEmbRow) : SimScore := ⟨query, r.embedding⟩

/-- `PostgreSQLVectorStorage.store_embedding`: `DELETE` all rows with the
natural key, `INSERT` the new row (with the fresh serial `newId`), then
`SELECT id` for the natural key and return the first result. -/
def pg_store_embedding (table : List PgEmbRow)
    (project_id content_type content_id title content : String)
    (embedding : List ℚ) (metadata : List (String × String)) (newId : Nat) :
    Option Nat × List PgEmbRow :=
  let t1 := table.filter fun r =>
    !(r.project_id == project_id && r.content_type == content_type && r.content_id == content_id)
  let t2 := t1 ++ [⟨newId, project_id, content_type, content_id, title, content, embedding, metadata⟩]
  let results := t2.filter fun r =>
    r.project_id == project_id && r.content_type == content_type && r.content_id == content_id
  ((results.head?).map PgEmbRow.id, t2)

/-- `PostgreSQLVectorStorage.search_similar`: the SQL query
`WHERE project_id = ? AND 1 - (embedding <=> ?) >= ? ORDER BY embedding <=> ?
LIMIT ?`.  The threshold condition `1 - distance >= threshold` is exactly
`similarity >= threshold` (`simGeQ`), and ordering by distance ascending is
ordering by similarity descending (`cosDistLe`); row order on equal distances
is modelled by the stable sort over the table's row order. -/
def pg_search_similar (table : List PgEmbRow) (project_id : String) (query : List ℚ)
    (limit : Nat) (threshold : ℚ) : List (PgEmbRow × SimScore) :=
  let rows := table.filter fun r =>
    r.project_id == project_id && simGeQ (pgSimScore query r) threshold
  ((rows.map fun r => (r, pgSimScore query r)).mergeSort fun p q => cosDistLe p.2 q.2).take limit

/-- `PostgreSQLVectorStorage.delete_embedding`: `SELECT` by natural key, return
`False` when nothing matches, otherwise `DELETE` and return `True`. -/
def pg_delete_embedding (table : List PgEmbRow) (project_id content_type content_id : String) :
    Bool × List PgEmbRow :=
  let hits := table.filter fun r =>
    r.project_id == project_id && r.content_type == content_type && r.content_id == content_id
  if hits.isEmpty then (false, table)
  else
    (true, table.filter fun r =>
      !(r.project_id == project_id && r.content_type == content_type && r.content_id == content_id))

/-- One row of the `traces` table (`DB.insert_trace` in `app/storage.py`). -/
structure TraceRow where
  id : String
  ts : String
  method : String
  path : String
  status : Int
  latency_ms : ℚ
  ip : String
  ua : String
  headers_slim : String
  query : String
  body_sha256 : String
  token_sub : Option String
  error : Option String
deriving DecidableEq

/-- ASCII lower-casing, as applied by SQLite's default `LIKE` (which is
case-insensitive for ASCII characters). -/
def asciiLower (c : Char) : Char :=
  if 'A' ≤ c && c ≤ 'Z' then Char.ofNat (c.toNat + 32) else c

/-- Worker for `likeMatch`; the fuel argument dominates the total length of
pattern plus string, so it never runs out on the initial call. -/
def likeMatchGo : Nat → List Char → List Char → Bool
  | 0, _, _ => false
  | _ + 1, [], [] => true
  | fuel + 1, '%' :: ps, s =>
    likeMatchGo fuel ps s ||
      (match s with
       | [] => false
       | _ :: s1 => likeMatchGo fuel ('%' :: ps) s1)
  | fuel + 1, '_' :: ps, _ :: s => likeMatchGo fuel ps s
  | fuel + 1, p :: ps, c :: s => asciiLower p == asciiLower c && likeMatchGo fuel ps s
  | _ + 1, _, _ => false

/-- SQLite `LIKE` pattern matching over character lists: `%` matches any run
of characters, `_` matches exactly one, and other characters match up to ASCII
case folding (SQLite's default `case_sensitive_like` is off). -/
def likeMatch (p s : List Char) : Bool := likeMatchGo (p.length + s.length + 1) p s

/-- Specification-side case-sensitive substring test (what the spec calls
"a case-sensitive substring match"): some contiguous slice of `hay` equals
`needle`. -/
def isSubstr (needle hay : List Char) : Bool :=
  (List.range (hay.length + 1)).any fun i => (hay.drop i).take needle.length == needle

/-- The row filter of `DB.list_traces`: the AND of the supplied optional
conditions.  `sinceSecondsCut` is the timestamp string the code computes as
`utcnow() - timedelta(seconds=since_seconds)` — the wall clock enters only
through this value, so it is an explicit parameter.  Python skips the
`since`/`path`/`ip` filters when the argument is falsy, so an empty string
behaves as "no filter". -/
def traceKeep (since : Option String) (status : Option Int) (path : Option String)
    (ip : Option String) (has_error : Option Bool) (sinceSecondsCut : Option String)
    (tr : TraceRow) : Bool :=
  (match since with
   | none => true
   | some s => s == "" || decide (s ≤ tr.ts)) &&
  (match sinceSecondsCut with
   | none => true
   | some s => decide (s ≤ tr.ts)) &&
  (match status with
   | none => true
   | some st => tr.status == st) &&
  (match path with
   | none => true
   | some p => p == "" || likeMatch ("%" ++ p ++ "%").toList tr.path.toList) &&
  (match ip with
   | none => true
   | some i => i == "" || tr.ip == i) &&
  (match has_error with
   | none => true
   | some b => if b then tr.error.isSome else tr.error.isNone)

/-- `DB.list_traces`: rows satisfying all supplied filters, `ORDER BY ts DESC`
(stable over the table's row order) then `LIMIT`. -/
def list_traces (traces : List TraceRow) (since : Option String) (limit : Nat)
    (status : Option Int) (path : Option String) (ip : Option String)
    (has_error : Option Bool) (sinceSecondsCut : Option String) : List TraceRow :=
  ((traces.filter (traceKeep since status path ip has_error sinceSecondsCut)).mergeSort
      fun a b => decide (b.ts ≤ a.ts)).take limit

/-- The result record of `DB.metrics_summary`. -/
structure MetricsSummary where
  window : String
  total : Nat
  by2xx : Nat
  by4xx : Nat
  by5xx : Nat
  top_paths : List (String × Nat)
  unauthorized : Nat
  p95_latency_ms : Option ℚ
deriving DecidableEq

/-- One step of the `top_paths[p] = top_paths.get(p, 0) + 1` accumulation:
Python dicts keep keys in first-insertion order. -/
def addPath (acc : List (String × Nat)) (p : String) : List (String × Nat) :=
  if acc.any fun kv => kv.1 == p then
    acc.map fun kv => if kv.1 == p then (kv.1, kv.2 + 1) else kv
  else acc ++ [(p, 1)]

/-- The `top_paths` dict after the loop over all rows: paths in first-seen
order, each with its occurrence count. -/
def pathCounts (rows : List TraceRow) : List (String × Nat) :=
  rows.foldl (fun acc r => addPath acc r.path) []

/-- `DB.metrics_summary` over the rows whose timestamp fell inside the
trailing window (the `WHERE ts >= ?` result set is the explicit argument;
the wall clock enters only through it).  Statuses are bucketed by the chained
conditions `200 <= s < 300` / `400 <= s < 500` / `500 <= s < 600`; the p95
index `int(0.95 * (n - 1))` is `19 * (n - 1) / 20` in exact arithmetic. -/
def metrics_summary (rows : List TraceRow) (window_seconds : Nat) : MetricsSummary :=
  let latencies := rows.map fun r => r.latency_ms
  let n := latencies.length
  { window :=
      if window_seconds % 3600 ≠ 0 then toString (window_seconds / 60) ++ "m"
      else toString (window_seconds / 3600) ++ "h"
    total := rows.length
    by2xx := rows.countP fun r => 200 ≤ r.status && r.status < 300
    by4xx := rows.countP fun r => 400 ≤ r.status && r.status < 500
    by5xx := rows.countP fun r => 500 ≤ r.status && r.status < 600
    top_paths := ((pathCounts rows).mergeSort fun a b => decide (b.2 ≤ a.2)).take 10
    unauthorized := rows.countP fun r => r.status == 401
    p95_latency_ms :=
      if n = 0 then none
      else some (((latencies.mergeSort fun a b => decide (a ≤ b)).getD (19 * (n - 1) / 20)) 0) }

/-- The base64 alphabet, in index order (`base64.b64encode`). -/
def b64Alphabet : List Char :=
  ['A', 'B', 'C', 'D', 'E', 'F', 'G', 'H', 'I', 'J', 'K', 'L', 'M',
   'N', 'O', 'P', 'Q', 'R', 'S', 'T', 'U', 'V', 'W', 'X', 'Y', 'Z',
   'a', 'b', 'c', 'd', 'e', 'f', 'g', 'h', 'i', 'j', 'k', 'l', 'm',
   'n', 'o', 'p', 'q', 'r', 's', 't', 'u', 'v', 'w', 'x', 'y', 'z',
   '0', '1', '2', '3', '4', '5', '6', '7', '8', '9', '+', '/']

/-- The character encoding a 6-bit group. -/
def sixToChar (n : Nat) : Char := b64Alphabet.getD n '='

/-- The 6-bit group encoded by a character, `none` for characters outside the
alphabet (such as the padding `=`). -/
def charToSix (c : Char) : Option Nat := b64Alphabet.indexOf? c

/-- `base64.b64encode` on a byte sequence (bytes as naturals below 256):
three bytes become four alphabet characters; a trailing group of one or two
bytes is padded with `=`. -/
def b64encode : List Nat → List Char
  | [] => []
  | [a] => [sixToChar (a / 4), sixToChar (a % 4 * 16), '=', '=']
  | [a, b] => [sixToChar (a / 4), sixToChar (a % 4 * 16 + b / 16), sixToChar (b % 16 * 4), '=']
  | a :: b :: c :: rest =>
    sixToChar (a / 4) :: sixToChar (a % 4 * 16 + b / 16) ::
      sixToChar (b % 16 * 4 + c / 64) :: sixToChar (c % 64) :: b64encode rest

/-- `base64.b64decode` on well-formed input: four characters become three
bytes, with `=` padding ending the input; malformed input yields `none`
(the Python call raises, which `retrieve_file` converts to `ValueError`). -/
def b64decode : List Char → Option (List Nat)
  | [] => some []
  | w :: x :: y :: z :: rest =>
    match charToSix w, charToSix x with
    | some a, some b =>
      if y = '=' then
        if z = '=' && rest.isEmpty then some [a * 4 + b / 16] else none
      else
        match charToSix y with
        | some c =>
          if z = '=' then
            if rest.isEmpty then some [a * 4 + b / 16, b % 16 * 16 + c / 4] else none
          else
            match charToSix z with
            | some d =>
              (b64decode rest).map fun t =>
                (a * 4 + b / 16) :: (b % 16 * 16 + c / 4) :: (c % 4 * 64 + d) :: t
            | none => none
        | none => none
    | _, _ => none
  | _ => none

/-- The metadata record stored for one attachment in the local backend's
`metadata.json` (keyed by file id), from `LocalAttachmentStorage.store_file`. -/
structure FileMeta where
  file_id : String
  project_id : String
  content_type : String
  content_id : String
  filename : String
  original_filename : String
  mime_type : Option String
  file_size : Nat
deriving DecidableEq

/-- State of one project's local attachment directory: the blob files on disk
(storage filename to byte content, most recent write first) and the
`metadata.json` mapping (file id to metadata record, most recent write
first); lookups take the most recent entry, like the real file system and
JSON object. -/
structure LocalAttachState where
  files : List (String × List Nat)
  metadata : List (String × FileMeta)
deriving DecidableEq

/-- The storage filename chosen by `LocalAttachmentStorage.store_file`:
`file_id` with the original extension preserved when the filename has one
(`filename.split('.')[-1]`). -/
def storageFilename (fileId filename : String) : String :=
  if filename.contains '.' then fileId ++ "." ++ (filename.splitOn ".").getLastD ""
  else fileId

/-- `LocalAttachmentStorage.store_file`: write the bytes under the derived
storage filename, record the metadata (with the caller's filename kept
verbatim in `original_filename`) under the fresh `fileId`, and return the
file id. -/
def local_store_file (st : LocalAttachState) (project_id content_type content_id filename : String)
    (content : List Nat) (mime_type : Option String) (fileId : String) :
    String × LocalAttachState :=
  let sf := storageFilename fileId filename
  (fileId,
    { files := (sf, content) :: st.files
      metadata := (fileId, ⟨fileId, project_id, content_type, content_id, sf, filename,
        mime_type, content.length⟩) :: st.metadata })

/-- `LocalAttachmentStorage.retrieve_file`: look up the metadata record, then
read the blob at its storage filename; `none` models the `FileNotFoundError`
raised when either is missing. -/
def local_retrieve_file (st : LocalAttachState) (fileId : String) :
    Option (List Nat × Option String × String) :=
  match (st.metadata.lookup fileId) with
  | none => none
  | some m =>
    match (st.files.lookup m.filename) with
    | none => none
    | some content => some (content, m.mime_type, m.original_filename)

/-- `LocalAttachmentStorage.delete_file`: `False` when the metadata record is
missing; otherwise unlink the blob, drop the metadata entry and return
`True`. -/
def local_delete_file (st : LocalAttachState) (fileId : String) : Bool × LocalAttachState :=
  match (st.metadata.lookup fileId) with
  | none => (false, st)
  | some m =>
    (true,
      { files := st.files.filter fun kv => !(kv.1 == m.filename)
        metadata := st.metadata.filter fun kv => !(kv.1 == fileId) })

/-- `LocalAttachmentStorage.list_files`: all metadata records, optionally
filtered by content type. -/
def local_list_files (st : LocalAttachState) (content_type : Option String) : List FileMeta :=
  let files := st.metadata.map fun kv => kv.2
  match content_type with
  | some ct => files.filter fun f => f.content_type == ct
  | none => files

/-- One row of the `attachments` table used by `PostgreSQLAttachmentStorage`:
the content is stored inline, base64-encoded. -/
structure PgAttachRow where
  file_id : String
  project_id : String
  content_type : String
  content_id : String
  filename : String
  original_filename : String
  mime_type : Option String
  file_size : Nat
  file_content_base64 : List Char
deriving DecidableEq

/-- `PostgreSQLAttachmentStorage.store_file`: `INSERT` one row whose
`filename` and `original_filename` are both the caller's filename and whose
content is base64-encoded; the fresh `uuid.uuid4()` is the explicit `fileId`. -/
def pg_store_file (table : List PgAttachRow)
    (project_id content_type content_id filename : String)
    (content : List Nat) (mime_type : Option String) (fileId : String) :
    String × List PgAttachRow :=
  (fileId,
    table ++ [⟨fileId, project_id, content_type, content_id, filename, filename,
      mime_type, content.length, b64encode content⟩])

/-- `PostgreSQLAttachmentStorage.retrieve_file`: `SELECT` by project and file
id (first matching row), decode the base64 content; `none` models both the
`FileNotFoundError` on a missing row and the `ValueError` on a corrupt blob. -/
def pg_retrieve_file (table : List PgAttachRow) (project_id fileId : String) :
    Option (List Nat × Option String × String) :=
  match table.filter fun r => r.project_id == project_id && r.file_id == fileId with
  | [] => none
  | r :: _ => (b64decode r.file_content_base64).map fun bytes =>
      (bytes, r.mime_type, r.original_filename)

/-- `PostgreSQLAttachmentStorage.delete_file`: `SELECT` by project and file
id, return `False` when nothing matches, otherwise `DELETE` and return
`True`. -/
def pg_delete_file (table : List PgAttachRow) (project_id fileId : String) :
    Bool × List PgAttachRow :=
  let hits := table.filter fun r => r.project_id == project_id && r.file_id == fileId
  if hits.isEmpty then (false, table)
  else (true, table.filter fun r => !(r.project_id == project_id && r.file_id == fileId))

/-- One row of the `projects` table (`PostgreSQLContentStorage`). -/
structure ProjRow where
  id : String
  name : String
  active : Bool
deriving DecidableEq

/-- `PostgreSQLContentStorage.create_or_update_project`: `SELECT id` by key;
when a row exists, `UPDATE` its name and active flag and return `False`;
otherwise `INSERT` and return `True`. -/
def create_or_update_project (table : List ProjRow) (project_id project_name : String)
    (active : Bool) : Bool × List ProjRow :=
  let existing := table.filter fun r => r.id == project_id
  if existing.isEmpty then (true, table ++ [⟨project_id, project_name, active⟩])
  else (false, table.map fun r => if r.id == project_id then ⟨r.id, project_name, active⟩ else r)

/-- One row of the `faqs` table. -/
structure FaqRow where
  id : String
  project_id : String
  question : String
  answer : String
  tags : String
  source : String
  source_file : Option String
  metadata : List (String × String)
deriving DecidableEq

/-- One input entry of an `upsert_faqs` batch; `id` is optional (and Python
treats an empty string like a missing id, `if not faq_id`). -/
structure FaqEntry where
  id : Option String
  question : String
  answer : String
  tags : String
  source : String
  source_file : Option String
  metadata : List (String × String)
deriving DecidableEq

/-- The id under which one batch entry is processed: the caller's id when it
is present and non-empty, otherwise the generated `faq_{uuid4().hex[:8]}`,
modelled by the generator `gen` at counter `k`. -/
def resolveId (eid : Option String) (gen : Nat → String) (k : Nat) : String :=
  match eid with
  | none => gen k
  | some i => if i = "" then gen k else i

/-- Whether processing an entry consumes one generated id. -/
def usesGen (eid : Option String) : Bool :=
  match eid with
  | none => true
  | some i => i == ""

/-- The ids each entry of a batch resolves to, in input order. -/
def resolvedIds (entries : List (Option String)) (gen : Nat → String) (k : Nat) : List String :=
  match entries with
  | [] => []
  | e :: es => resolveId e gen k :: resolvedIds es gen (if usesGen e then k + 1 else k)

/-- How many generated ids a batch prefix consumes: the number of its entries
with a missing (or empty) id.  The generator counter after processing a
prefix `pre` starting at `k` is `k + genUsed (pre.map (·.id))`. -/
def genUsed (ids : List (Option String)) : Nat := ids.countP usesGen

/-- `PostgreSQLContentStorage.upsert_faqs`: process the batch in order; for
each entry resolve its id, `SELECT` it within the project, then either
`UPDATE` the existing row (an "updated" outcome) or `INSERT` a new one (a
"created" outcome).  Returns `((created_ids, updated_ids), table)`. -/
def upsert_faqs (table : List FaqRow) (project_id : String) (faqs : List FaqEntry)
    (gen : Nat → String) (k : Nat) : (List String × List String) × List FaqRow :=
  match faqs with
  | [] => (([], []), table)
  | e :: es =>
    let fid := resolveId e.id gen k
    let k1 := if usesGen e.id then k + 1 else k
    let existing := table.filter fun r => r.id == fid && r.project_id == project_id
    if existing.isEmpty then
      let table1 := table ++
        [⟨fid, project_id, e.question, e.answer, e.tags, e.source, e.source_file, e.metadata⟩]
      let rec1 := upsert_faqs table1 project_id es gen k1
      ((fid :: rec1.1.1, rec1.1.2), rec1.2)
    else
      let table1 := table.map fun r =>
        if r.id == fid && r.project_id == project_id then
          ⟨r.id, r.project_id, e.question, e.answer, e.tags, e.source, e.source_file, e.metadata⟩
        else r
      let rec1 := upsert_faqs table1 project_id es gen k1
      ((rec1.1.1, fid :: rec1.1.2), rec1.2)

/-- One row of the `kb_articles` table. -/
structure KbRow where
  id : String
  project_id : String
  title : String
  content : String
  tags : String
  source : String
  source_file : Option String
  metadata : List (String × String)
deriving DecidableEq

/-- One input entry of an `upsert_kb_articles` batch. -/
structure KbEntry where
  id : Option String
  title : String
  content : String
  tags : String
  source : String
  source_file : Option String
  metadata : List (String × String)
deriving DecidableEq

/-- `PostgreSQLContentStorage.upsert_kb_articles`: same batch processing as
`upsert_faqs`, with the generated ids prefixed `kb_` (also modelled by
`gen`). -/
def upsert_kb_articles (table : List KbRow) (project_id : String) (articles : List KbEntry)
    (gen : Nat → String) (k : Nat) : (List String × List String) × List KbRow :=
  match articles with
  | [] => (([], []), table)
  | e :: es =>
    let aid := resolveId e.id gen k
    let k1 := if usesGen e.id then k + 1 else k
    let existing := table.filter fun r => r.id == aid && r.project_id == project_id
    if existing.isEmpty then
      let table1 := table ++
        [⟨aid, project_id, e.title, e.content, e.tags, e.source, e.source_file, e.metadata⟩]
      let rec1 := upsert_kb_articles table1 project_id es gen k1
      ((aid :: rec1.1.1, rec1.1.2), rec1.2)
    else
      let table1 := table.map fun r =>
        if r.id == aid && r.project_id == project_id then
          ⟨r.id, r.project_id, e.title, e.content, e.tags, e.source, e.source_file, e.metadata⟩
        else r
      let rec1 := upsert_kb_articles table1 project_id es gen k1
      ((rec1.1.1, aid :: rec1.1.2), rec1.2)

/-- The value returned by `DatabaseInterface.execute`: `none` models Python's
`None` — both `SQLiteDatabase.execute` and `PostgreSQLDatabase.execute`
commit and fall off the end of the function, so no cursor (and hence no
`rowcount`) ever reaches the caller. -/
def executeRet : Option Nat := none

/-- `PostgreSQLContentStorage.delete_faq`: `DELETE` by id and project, then
`return result.rowcount > 0 if hasattr(result, 'rowcount') else True`.  With
`executeRet = none` the `hasattr` test fails and the function returns `True`
regardless of whether any row was removed. -/
def delete_faq (table : List FaqRow) (project_id faq_id : String) : Bool × List FaqRow :=
  let table1 := table.filter fun r => !(r.id == faq_id && r.project_id == project_id)
  (match executeRet with
   | some rc => decide (rc > 0)
   | none => true, table1)

/-- `PostgreSQLContentStorage.delete_kb_article`: same shape as
`delete_faq`. -/
def delete_kb_article (table : List KbRow) (project_id article_id : String) : Bool × List KbRow :=
  let table1 := table.filter fun r => !(r.id == article_id && r.project_id == project_id)
  (match executeRet with
   | some rc => decide (rc > 0)
   | none => true, table1)

/-- Possible states of a per-project JSON collection file (`embeddings.json`
or `metadata.json`) as distinguished by `_load_embeddings`/`_load_metadata`:
missing, unreadable (`IOError`), syntactically invalid (`JSONDecodeError`),
or holding parsed data. -/
inductive JsonFile (α : Type) where
  | absent : JsonFile α
  | unreadable : JsonFile α
  | invalid : JsonFile α
  | ok : α → JsonFile α
deriving DecidableEq

/-- `LocalVectorStorage._load_embeddings`: the parsed array when the file
exists and parses, the empty collection in every failure case. -/
def load_embeddings (f : JsonFile (List EmbRec)) : List EmbRec :=
  match f with
  | .ok l => l
  | _ => []

/-- `LocalAttachmentStorage._load_metadata`: the parsed mapping when the file
exists and parses, the empty mapping in every failure case. -/
def load_metadata (f : JsonFile (List (String × FileMeta))) : List (String × FileMeta) :=
  match f with
  | .ok m => m
  | _ => []

/-- The natural-key invariant of a local embeddings collection: at most one
live record per `(content_type, content_id)` (the scope is fixed by the
per-project file). -/
def UniqueKeys (l : List EmbRec) : Prop :=
  l.Pairwise fun a b => ¬(a.content_type = b.content_type ∧ a.content_id = b.content_id)

/-- The natural-key invariant of the `vector_embeddings` table: at most one
live row per `(project_id, content_type, content_id)`. -/
def PgUniqueKeys (l : List PgEmbRow) : Prop :=
  l.Pairwise fun a b =>
    ¬(a.project_id = b.project_id ∧ a.content_type = b.content_type ∧
      a.content_id = b.content_id)

/-- Key invariant of the `projects` table: at most one row per id. -/
def UniqueProjIds (l : List ProjRow) : Prop :=
  l.Pairwise fun a b => a.id ≠ b.id

/-- Key invariant of the `faqs` table: at most one row per `(id, project_id)`. -/
def FaqUniqueKeys (l : List FaqRow) : Prop :=
  l.Pairwise fun a b => ¬(a.id = b.id ∧ a.project_id = b.project_id)

/-- Key invariant of the `kb_articles` table: at most one row per
`(id, project_id)`. -/
def KbUniqueKeys (l : List KbRow) : Prop :=
  l.Pairwise fun a b => ¬(a.id = b.id ∧ a.project_id = b.project_id)

/-- The keys of a Python dict in first-insertion order: the order in which
`metrics_summary` accumulates `top_paths`. -/
def firstSeen (l : List String) : List String :=
  l.foldl (fun acc p => if p ∈ acc then acc else acc ++ [p]) []

theorem magSq_nonneg (a : List ℚ) : 0 ≤ magSq a := by
  unfold magSq
  apply List.sum_nonneg
  intro x hx
  obtain ⟨y, _, rfl⟩ := List.mem_map.mp hx
  exact mul_self_nonneg y

theorem maq_nonneg (s : SimScore) : 0 ≤ s.maq := magSq_nonneg s.qv

theorem mab_nonneg (s : SimScore) : 0 ≤ s.mab := magSq_nonneg s.ev

theorem exists_simVal (s : SimScore) : ∃ v : ℝ, IsSimVal s v := ⟨_, rfl⟩

theorem sqrtD_pos {p q : ℚ} (hp : 0 ≤ p) (hq : 0 ≤ q) (hp0 : p ≠ 0) (hq0 : q ≠ 0) :
    0 < Real.sqrt (p : ℝ) * Real.sqrt (q : ℝ) := by
  have hp1 : (0 : ℝ) < (p : ℝ) := by exact_mod_cast lt_of_le_of_ne hp (Ne.symm hp0)
  have hq1 : (0 : ℝ) < (q : ℝ) := by exact_mod_cast lt_of_le_of_ne hq (Ne.symm hq0)
  exact mul_pos (Real.sqrt_pos.mpr hp1) (Real.sqrt_pos.mpr hq1)

theorem sqrtD_sq {p q : ℚ} (hp : 0 ≤ p) (hq : 0 ≤ q) :
    (Real.sqrt (p : ℝ) * Real.sqrt (q : ℝ)) ^ 2 = (p : ℝ) * (q : ℝ) := by
  rw [mul_pow, Real.sq_sqrt (by exact_mod_cast hp), Real.sq_sqrt (by exact_mod_cast hq)]

theorem nonneg_le_of_sq_le {a b : ℝ} (ha : 0 ≤ a) (hb : 0 ≤ b) (h : a ^ 2 ≤ b ^ 2) :
    a ≤ b := by
  calc a = Real.sqrt (a ^ 2) := (Real.sqrt_sq ha).symm
    _ ≤ Real.sqrt (b ^ 2) := Real.sqrt_le_sqrt h
    _ = b := Real.sqrt_sq hb

/-- Correctness of the exact threshold test: `simGeQ s t` decides
`threshold ≤ similarity` for the real cosine similarity denoted by `s`. -/
theorem simGeQ_iff (s : SimScore) (t : ℚ) (v : ℝ) (h : IsSimVal s v) :
    simGeQ s t = true ↔ (t : ℝ) ≤ v := by
  have hmaq := maq_nonneg s
  have hmab := mab_nonneg s
  unfold IsSimVal at h
  unfold simGeQ
  by_cases hz : s.maq = 0 ∨ s.mab = 0
  · rw [if_pos hz] at h
    rw [if_pos hz]
    subst h
    simp only [decide_eq_true_eq]
    exact_mod_cast Iff.rfl
  · rw [if_neg hz] at h
    rw [if_neg hz]
    push_neg at hz
    subst h
    have hd : 0 < Real.sqrt (s.maq : ℝ) * Real.sqrt (s.mab : ℝ) :=
      sqrtD_pos hmaq hmab hz.1 hz.2
    have hd2 : (Real.sqrt (s.maq : ℝ) * Real.sqrt (s.mab : ℝ)) ^ 2 = (s.maq : ℝ) * s.mab :=
      sqrtD_sq hmaq hmab
    set d := Real.sqrt (s.maq : ℝ) * Real.sqrt (s.mab : ℝ) with hdef
    rw [le_div_iff₀ hd]
    by_cases ht : 0 ≤ t
    · rw [if_pos ht]
      simp only [Bool.and_eq_true, decide_eq_true_eq]
      have htd : (0 : ℝ) ≤ (t : ℝ) * d := mul_nonneg (by exact_mod_cast ht) hd.le
      constructor
      · rintro ⟨h1, h2⟩
        have h1R : (0 : ℝ) ≤ (s.num : ℝ) := by exact_mod_cast h1
        have h2R : (t : ℝ) ^ 2 * ((s.maq : ℝ) * s.mab) ≤ (s.num : ℝ) ^ 2 := by
          unfold SimScore.den at h2
          exact_mod_cast h2
        refine nonneg_le_of_sq_le htd h1R ?_
        calc ((t : ℝ) * d) ^ 2 = (t : ℝ) ^ 2 * d ^ 2 := by ring
          _ = (t : ℝ) ^ 2 * ((s.maq : ℝ) * s.mab) := by rw [hd2]
          _ ≤ (s.num : ℝ) ^ 2 := h2R
      · intro h1
        have h0 : (0 : ℝ) ≤ (s.num : ℝ) := le_trans htd h1
        have h2 : ((t : ℝ) * d) ^ 2 ≤ (s.num : ℝ) ^ 2 := by nlinarith
        have h3 : (t : ℝ) ^ 2 * ((s.maq : ℝ) * s.mab) ≤ (s.num : ℝ) ^ 2 := by
          calc (t : ℝ) ^ 2 * ((s.maq : ℝ) * s.mab) = (t : ℝ) ^ 2 * d ^ 2 := by rw [hd2]
            _ = ((t : ℝ) * d) ^ 2 := by ring
            _ ≤ (s.num : ℝ) ^ 2 := h2
        refine ⟨by exact_mod_cast h0, ?_⟩
        unfold SimScore.den
        exact_mod_cast h3
    · rw [if_neg ht]
      push_neg at ht
      have htd : (t : ℝ) * d < 0 := mul_neg_of_neg_of_pos (by exact_mod_cast ht) hd
      simp only [Bool.or_eq_true, decide_eq_true_eq]
      constructor
      · rintro (h1 | h1)
        · have : (0 : ℝ) ≤ (s.num : ℝ) := by exact_mod_cast h1
          linarith
        · have h1R : (s.num : ℝ) ^ 2 ≤ (t : ℝ) ^ 2 * ((s.maq : ℝ) * s.mab) := by
            unfold SimScore.den at h1
            exact_mod_cast h1
          by_cases hn : 0 ≤ (s.num : ℝ)
          · linarith
          · push_neg at hn
            have := nonneg_le_of_sq_le (neg_nonneg.mpr hn.le) (neg_nonneg.mpr htd.le)
              (by rw [neg_sq, neg_sq]
                  calc (s.num : ℝ) ^ 2 ≤ (t : ℝ) ^ 2 * ((s.maq : ℝ) * s.mab) := h1R
                    _ = (t : ℝ) ^ 2 * d ^ 2 := by rw [hd2]
                    _ = ((t : ℝ) * d) ^ 2 := by ring)
            linarith
      · intro h1
        by_cases hn : (0 : ℚ) ≤ s.num
        · exact Or.inl hn
        · push_neg at hn
          have hnR : (s.num : ℝ) < 0 := by exact_mod_cast hn
          refine Or.inr ?_
          have h2 : (s.num : ℝ) ^ 2 ≤ ((t : ℝ) * d) ^ 2 := by nlinarith
          have h3 : (s.num : ℝ) ^ 2 ≤ (t : ℝ) ^ 2 * ((s.maq : ℝ) * s.mab) := by
            calc (s.num : ℝ) ^ 2 ≤ ((t : ℝ) * d) ^ 2 := h2
              _ = (t : ℝ) ^ 2 * d ^ 2 := by ring
              _ = (t : ℝ) ^ 2 * ((s.maq : ℝ) * s.mab) := by rw [hd2]
          unfold SimScore.den
          exact_mod_cast h3

/-- Correctness of the exact comparison of two similarities: `simGeS x y`
decides `similarity y ≤ similarity x` on the real values. -/
theorem simGeS_iff (x y : SimScore) (vx vy : ℝ) (hx : IsSimVal x vx) (hy : IsSimVal y vy) :
    simGeS x y = true ↔ vy ≤ vx := by
  have hmaqx := maq_nonneg x
  have hmabx := mab_nonneg x
  have hmaqy := maq_nonneg y
  have hmaby := mab_nonneg y
  unfold IsSimVal at hx hy
  unfold simGeS
  by_cases hzx : x.maq = 0 ∨ x.mab = 0
  · rw [if_pos hzx] at hx ⊢
    subst hx
    by_cases hzy : y.maq = 0 ∨ y.mab = 0
    · rw [if_pos hzy] at hy ⊢
      subst hy
      simp
    · rw [if_neg hzy] at hy ⊢
      push_neg at hzy
      subst hy
      have hdy : 0 < Real.sqrt (y.maq : ℝ) * Real.sqrt (y.mab : ℝ) :=
        sqrtD_pos hmaqy hmaby hzy.1 hzy.2
      rw [div_le_iff₀ hdy, zero_mul]
      simp only [decide_eq_true_eq]
      exact_mod_cast Iff.rfl
  · rw [if_neg hzx] at hx ⊢
    push_neg at hzx
    subst hx
    have hdx : 0 < Real.sqrt (x.maq : ℝ) * Real.sqrt (x.mab : ℝ) :=
      sqrtD_pos hmaqx hmabx hzx.1 hzx.2
    have hdx2 : (Real.sqrt (x.maq : ℝ) * Real.sqrt (x.mab : ℝ)) ^ 2 = (x.maq : ℝ) * x.mab :=
      sqrtD_sq hmaqx hmabx
    set dx := Real.sqrt (x.maq : ℝ) * Real.sqrt (x.mab : ℝ) with hdxdef
    by_cases hzy : y.maq = 0 ∨ y.mab = 0
    · rw [if_pos hzy] at hy ⊢
      subst hy
      rw [le_div_iff₀ hdx, zero_mul]
      simp only [decide_eq_true_eq]
      exact_mod_cast Iff.rfl
    · rw [if_neg hzy] at hy ⊢
      push_neg at hzy
      subst hy
      have hdy : 0 < Real.sqrt (y.maq : ℝ) * Real.sqrt (y.mab : ℝ) :=
        sqrtD_pos hmaqy hmaby hzy.1 hzy.2
      have hdy2 : (Real.sqrt (y.maq : ℝ) * Real.sqrt (y.mab : ℝ)) ^ 2 = (y.maq : ℝ) * y.mab :=
        sqrtD_sq hmaqy hmaby
      set dy := Real.sqrt (y.maq : ℝ) * Real.sqrt (y.mab : ℝ) with hdydef
      rw [div_le_div_iff hdy hdx]
      by_cases hnx : 0 ≤ x.num
      · rw [if_pos hnx]
        have hnxR : (0 : ℝ) ≤ (x.num : ℝ) := by exact_mod_cast hnx
        by_cases hny : 0 ≤ y.num
        · rw [if_pos hny]
          have hnyR : (0 : ℝ) ≤ (y.num : ℝ) := by exact_mod_cast hny
          simp only [decide_eq_true_eq]
          have hsq : ((y.num : ℝ) * dx) ^ 2 = (y.num : ℝ) ^ 2 * ((x.maq : ℝ) * x.mab) := by
            rw [mul_pow, hdx2]
          have hsq2 : ((x.num : ℝ) * dy) ^ 2 = (x.num : ℝ) ^ 2 * ((y.maq : ℝ) * y.mab) := by
            rw [mul_pow, hdy2]
          constructor
          · intro h
            have hR : (y.num : ℝ) ^ 2 * ((x.maq : ℝ) * x.mab) ≤
                (x.num : ℝ) ^ 2 * ((y.maq : ℝ) * y.mab) := by
              unfold SimScore.den at h
              exact_mod_cast h
            exact nonneg_le_of_sq_le (mul_nonneg hnyR hdx.le) (mul_nonneg hnxR hdy.le)
              (by rw [hsq, hsq2]; exact hR)
          · intro h
            have h2 := pow_le_pow_left (mul_nonneg hnyR hdx.le) h 2
            rw [hsq, hsq2] at h2
            unfold SimScore.den
            exact_mod_cast h2
        · rw [if_neg hny]
          push_neg at hny
          have hnyR : (y.num : ℝ) < 0 := by exact_mod_cast hny
          simp only [true_iff]
          have h1 : (y.num : ℝ) * dx < 0 := mul_neg_of_neg_of_pos hnyR hdx
          have h2 : (0 : ℝ) ≤ (x.num : ℝ) * dy := mul_nonneg hnxR hdy.le
          linarith
      · rw [if_neg hnx]
        push_neg at hnx
        have hnxR : (x.num : ℝ) < 0 := by exact_mod_cast hnx
        by_cases hny : 0 ≤ y.num
        · rw [if_pos hny]
          have hnyR : (0 : ℝ) ≤ (y.num : ℝ) := by exact_mod_cast hny
          simp only [Bool.false_eq_true, false_iff, not_le]
          have h1 : (x.num : ℝ) * dy < 0 := mul_neg_of_neg_of_pos hnxR hdy
          have h2 : (0 : ℝ) ≤ (y.num : ℝ) * dx := mul_nonneg hnyR hdx.le
          linarith
        · rw [if_neg hny]
          push_neg at hny
          have hnyR : (y.num : ℝ) < 0 := by exact_mod_cast hny
          simp only [decide_eq_true_eq]
          have hsq : ((x.num : ℝ) * dy) ^ 2 = (x.num : ℝ) ^ 2 * ((y.maq : ℝ) * y.mab) := by
            rw [mul_pow, hdy2]
          have hsq2 : ((y.num : ℝ) * dx) ^ 2 = (y.num : ℝ) ^ 2 * ((x.maq : ℝ) * x.mab) := by
            rw [mul_pow, hdx2]
          have hax : (0 : ℝ) ≤ -((x.num : ℝ) * dy) :=
            neg_nonneg.mpr (mul_neg_of_neg_of_pos hnxR hdy).le
          have hay : (0 : ℝ) ≤ -((y.num : ℝ) * dx) :=
            neg_nonneg.mpr (mul_neg_of_neg_of_pos hnyR hdx).le
          constructor
          · intro h
            have hR : (x.num : ℝ) ^ 2 * ((y.maq : ℝ) * y.mab) ≤
                (y.num : ℝ) ^ 2 * ((x.maq : ℝ) * x.mab) := by
              unfold SimScore.den at h
              exact_mod_cast h
            have := nonneg_le_of_sq_le hax hay
              (by rw [neg_sq, neg_sq, hsq, hsq2]; exact hR)
            linarith
          · intro h
            have h2 := pow_le_pow_left hax (by linarith : -((x.num : ℝ) * dy) ≤ -((y.num : ℝ) * dx)) 2
            rw [neg_sq, neg_sq, hsq, hsq2] at h2
            unfold SimScore.den
            exact_mod_cast h2

/-- `simGeS` is transitive (it decides a linear preorder on real values). -/
theorem simGeS_trans (a b c : SimScore) (h1 : simGeS a b) (h2 : simGeS b c) :
    simGeS a c = true := by
  obtain ⟨va, hva⟩ := exists_simVal a
  obtain ⟨vb, hvb⟩ := exists_simVal b
  obtain ⟨vc, hvc⟩ := exists_simVal c
  rw [simGeS_iff a b va vb hva hvb] at h1
  rw [simGeS_iff b c vb vc hvb hvc] at h2
  exact (simGeS_iff a c va vc hva hvc).mpr (le_trans h2 h1)

/-- `simGeS` is total. -/
theorem simGeS_total (a b : SimScore) : simGeS a b || simGeS b a := by
  obtain ⟨va, hva⟩ := exists_simVal a
  obtain ⟨vb, hvb⟩ := exists_simVal b
  rcases le_total vb va with h | h
  · simp [(simGeS_iff a b va vb hva hvb).mpr h]
  · simp [(simGeS_iff b a vb va hvb hva).mpr h]

/-- The pgvector ordering comparator decides `distance x ≤ distance y` on the
real cosine distances `1 - similarity`. -/
theorem cosDistLe_iff (x y : SimScore) (vx vy : ℝ) (hx : IsSimVal x vx) (hy : IsSimVal y vy) :
    cosDistLe x y = true ↔ (1 - vx) ≤ (1 - vy) := by
  rw [cosDistLe, simGeS_iff x y vx vy hx hy]
  constructor <;> intro h <;> linarith

theorem orderedInsert_append_of {α : Type} (le : α → α → Bool) (a : α) :
    ∀ (l1 l2 : List α), (∀ b ∈ l1, ¬ le a b = true) → (∀ c ∈ l2, le a c = true) →
      List.orderedInsert (fun x y => le x y = true) a (l1 ++ l2) = l1 ++ a :: l2
  | [], l2, _, h2 => by
    cases l2 with
    | nil => simp [List.orderedInsert]
    | cons c cs =>
      simp only [List.nil_append, List.orderedInsert, if_pos (h2 c (List.mem_cons_self c cs))]
  | b :: l1, l2, h1, h2 => by
    have hb : ¬ le a b = true := h1 b (List.mem_cons_self b l1)
    simp only [List.cons_append, List.orderedInsert, if_neg hb, List.append_eq]
    rw [orderedInsert_append_of le a l1 l2 (fun x hx => h1 x (List.mem_cons_of_mem b hx)) h2]

/-- Python's `list.sort` is a stable sort; `List.mergeSort` and Mathlib's
`List.insertionSort` are both stable, and a stable sort of a list under a
total transitive comparator is unique, so the two agree.  This equation is
how the embedding's sorts are related to the canonical stable
insertion sort. -/
theorem mergeSort_eq_insertionSort_stable {α : Type} (le : α → α → Bool)
    (trans : ∀ a b c, le a b → le b c → le a c)
    (total : ∀ a b, le a b || le b a) :
    ∀ l : List α, l.mergeSort le = List.insertionSort (fun a b => le a b = true) l
  | [] => by simp [List.insertionSort]
  | a :: l => by
    obtain ⟨l1, l2, h1, h2, h3⟩ := List.mergeSort_cons trans total a l
    have ih := mergeSort_eq_insertionSort_stable le trans total l
    rw [List.insertionSort, ← ih, h2, h1]
    have hs : (l1 ++ a :: l2).Pairwise fun x y => le x y = true := by
      have hp := List.sorted_mergeSort trans total (a :: l)
      rw [h1] at hp
      exact hp
    have hal2 : ∀ c ∈ l2, le a c = true := by
      intro c hc
      have := (List.pairwise_append.mp hs).2.1
      exact List.rel_of_pairwise_cons this hc
    have hal1 : ∀ b ∈ l1, ¬ le a b = true := by
      intro b hb h
      have := h3 b hb
      simp only [Bool.not_eq_true'] at this
      rw [this] at h
      exact Bool.false_ne_true h
    exact (orderedInsert_append_of le a l1 l2 hal1 hal2).symm

theorem simGeS_pair_trans {β : Type} (a b c : β × SimScore)
    (h1 : simGeS a.2 b.2) (h2 : simGeS b.2 c.2) : simGeS a.2 c.2 = true :=
  simGeS_trans a.2 b.2 c.2 h1 h2

theorem simGeS_pair_total {β : Type} (a b : β × SimScore) :
    simGeS a.2 b.2 || simGeS b.2 a.2 :=
  simGeS_total a.2 b.2

/-- Claim C3: for every stored corpus and every query vector, `search_similar`
scores each embedding by cosine similarity (the value described by
`IsSimVal`: dot product over the product of magnitudes, `0` when either
magnitude vanishes), returns only records whose similarity is at least the
threshold, sorted descending by similarity with ties kept in insertion order
(the output is the `limit`-prefix of the canonical stable insertion sort of
the threshold-filtered annotated records), each annotated with its similarity
score, and never more than `limit` records; when the threshold filter keeps
at most `limit` records, the output records are exactly the filtered ones. -/
theorem c3_search_similar_spec (embs : List EmbRec) (query : List ℚ) (limit : Nat)
    (threshold : ℚ) :
    (search_similar embs query limit threshold).length ≤ limit ∧
    (∀ p ∈ search_similar embs query limit threshold,
      p.1 ∈ embs ∧ p.2 = simScore query p.1) ∧
    (∀ p ∈ search_similar embs query limit threshold,
      ∀ v : ℝ, IsSimVal p.2 v → (threshold : ℝ) ≤ v) ∧
    (search_similar embs query limit threshold).Pairwise
      (fun p q => ∀ vp vq : ℝ, IsSimVal p.2 vp → IsSimVal q.2 vq → vq ≤ vp) ∧
    search_similar embs query limit threshold =
      (List.insertionSort (fun p q : EmbRec × SimScore => simGeS p.2 q.2 = true)
        ((embs.map fun e => (e, simScore query e)).filter
          fun p => simGeQ p.2 threshold)).take limit ∧
    (((embs.map fun e => (e, simScore query e)).filter
        fun p => simGeQ p.2 threshold).length ≤ limit →
      ((search_similar embs query limit threshold).map Prod.fst).Perm
        (embs.filter fun e => simGeQ (simScore query e) threshold)) := by
  have hdef : search_similar embs query limit threshold =
      (((embs.map fun e => (e, simScore query e)).filter
        fun p => simGeQ p.2 threshold).mergeSort fun p q => simGeS p.2 q.2).take limit := rfl
  set ann := (embs.map fun e => (e, simScore query e)).filter fun p => simGeQ p.2 threshold
    with hann
  have hmem : ∀ p ∈ search_similar embs query limit threshold,
      p.1 ∈ embs ∧ p.2 = simScore query p.1 ∧ simGeQ p.2 threshold = true := by
    intro p hp
    rw [hdef] at hp
    have h1 := List.mem_mergeSort.mp (List.take_subset _ _ hp)
    have h2 := List.mem_filter.mp h1
    obtain ⟨e, he, hpe⟩ := List.mem_map.mp h2.1
    refine ⟨?_, ?_, h2.2⟩
    · rw [← hpe]; exact he
    · rw [← hpe]
  refine ⟨?_, ?_, ?_, ?_, ?_, ?_⟩
  · rw [hdef]; exact List.length_take_le _ _
  · intro p hp
    exact ⟨(hmem p hp).1, (hmem p hp).2.1⟩
  · intro p hp v hv
    exact (simGeQ_iff p.2 threshold v hv).mp (hmem p hp).2.2
  · rw [hdef]
    have hs := @List.sorted_mergeSort (EmbRec × SimScore) (fun p q => simGeS p.2 q.2)
      (fun a b c => simGeS_pair_trans a b c) (fun a b => simGeS_pair_total a b) ann
    have hs2 := hs.sublist (List.take_sublist limit _)
    exact hs2.imp fun h vp vq hvp hvq => (simGeS_iff _ _ vp vq hvp hvq).mp h
  · rw [hdef, mergeSort_eq_insertionSort_stable (fun p q : EmbRec × SimScore => simGeS p.2 q.2)
      (fun a b c => simGeS_pair_trans a b c) (fun a b => simGeS_pair_total a b) ann]
  · intro hlen
    rw [hdef, List.take_of_length_le (by rw [List.length_mergeSort]; exact hlen)]
    have hperm : (ann.mergeSort fun p q : EmbRec × SimScore => simGeS p.2 q.2).Perm ann :=
      List.mergeSort_perm ann _
    refine (hperm.map Prod.fst).trans ?_
    rw [hann, List.filter_map]
    have : ((embs.filter fun e =>
        simGeQ (simScore query e) threshold).map fun e => (e, simScore query e)).map Prod.fst =
        embs.filter fun e => simGeQ (simScore query e) threshold := by
      rw [List.map_map]; exact List.map_id _
    rw [← this]
    rfl

/-- Witness for the conditional part of C3 at a concrete corpus: two unit
vectors, query equal to one of them, threshold `1/2`, limit `5`. -/
theorem c3_search_similar_spec_witness :
    ((search_similar
      [⟨"e1", "p1", "doc", "d1", "t", "c", [1, 0], []⟩,
       ⟨"e2", "p1", "doc", "d2", "t", "c", [0, 1], []⟩] [1, 0] 5 (1/2)).map Prod.fst).Perm
      ([⟨"e1", "p1", "doc", "d1", "t", "c", [1, 0], []⟩,
        ⟨"e2", "p1", "doc", "d2", "t", "c", [0, 1], []⟩].filter
        fun e => simGeQ (simScore [1, 0] e) (1/2)) :=
  (c3_search_similar_spec
    [⟨"e1", "p1", "doc", "d1", "t", "c", [1, 0], []⟩,
     ⟨"e2", "p1", "doc", "d2", "t", "c", [0, 1], []⟩] [1, 0] 5 (1/2)).2.2.2.2.2
    (le_trans (List.length_filter_le _ _) (by simp))

/-- Claim C2: for every table state, scope and call, the database-delegated
backend (`PostgreSQLVectorStorage.search_similar`, modelled over exact
arithmetic with row order standing in for the engine's stable scan order)
returns exactly the result of the linear-scan reference backend
(`LocalVectorStorage.search_similar`) run on the scope's records: the same
records under the same threshold filter, in the same similarity ranking, with
the same `limit` truncation.  Records are compared through `PgEmbRow.toEmb`,
which forgets only the synthetic-key representation. -/
theorem c2_pg_search_similar_matches_local (table : List PgEmbRow) (project_id : String)
    (query : List ℚ) (limit : Nat) (threshold : ℚ) :
    (pg_search_similar table project_id query limit threshold).map
        (fun p => (p.1.toEmb, p.2)) =
      search_similar ((table.filter fun r => r.project_id == project_id).map PgEmbRow.toEmb)
        query limit threshold := by
  have hcmp : ∀ a ∈ ((table.filter fun r =>
        r.project_id == project_id && simGeQ (pgSimScore query r) threshold).map
        fun r => (r, pgSimScore query r)),
      ∀ b ∈ ((table.filter fun r =>
        r.project_id == project_id && simGeQ (pgSimScore query r) threshold).map
        fun r => (r, pgSimScore query r)),
      (fun p q : PgEmbRow × SimScore => cosDistLe p.2 q.2) a b =
        (fun p q : EmbRec × SimScore => simGeS p.2 q.2)
          ((fun p : PgEmbRow × SimScore => (p.1.toEmb, p.2)) a)
          ((fun p : PgEmbRow × SimScore => (p.1.toEmb, p.2)) b) := by
    intro a _ b _
    rfl
  unfold pg_search_similar search_similar
  rw [List.map_take]
  rw [@List.map_mergeSort (PgEmbRow × SimScore) (EmbRec × SimScore)
    (fun p q => cosDistLe p.2 q.2) (fun p q => simGeS p.2 q.2)
    (fun p => (p.1.toEmb, p.2)) _ hcmp]
  congr 1
  rw [List.map_map, List.map_map, List.filter_map, List.filter_filter]
  rw [List.filter_congr (fun r _ => Bool.and_comm (r.project_id == project_id)
    (simGeQ (pgSimScore query r) threshold))]
  rfl

theorem filter_after_filter_not {α : Type} (p : α → Bool) (l : List α) :
    (l.filter fun a => !(p a)).filter p = [] := by
  rw [List.filter_filter]
  simp

theorem filter_not_idem {α : Type} (p : α → Bool) (l : List α) :
    (l.filter fun a => !(p a)).filter (fun a => !(p a)) = l.filter fun a => !(p a) := by
  rw [List.filter_filter]
  simp

/-- Claim C4: `store_embedding` and `delete_embedding` preserve the
at-most-one-record-per-natural-key invariant on both backends, and storing
twice under one natural key leaves exactly one record under that key — the
second call's title, content, vector and metadata — returning the second
call's (fresh) synthetic identifier. -/
theorem c4_store_embedding_upsert (embs : List EmbRec) (table : List PgEmbRow)
    (pid ct cid t1 c1 t2 c2 : String) (v1 v2 : List ℚ)
    (m1 m2 : List (String × String)) (id1 id2 : String) (pg1 pg2 : Nat)
    (h : UniqueKeys embs) (hpg : PgUniqueKeys table) :
    UniqueKeys (store_embedding embs pid ct cid t1 c1 v1 m1 id1).2 ∧
    UniqueKeys (delete_embedding embs ct cid).2 ∧
    (store_embedding (store_embedding embs pid ct cid t1 c1 v1 m1 id1).2
      pid ct cid t2 c2 v2 m2 id2).1 = id2 ∧
    (store_embedding (store_embedding embs pid ct cid t1 c1 v1 m1 id1).2
      pid ct cid t2 c2 v2 m2 id2).2.filter
        (fun e => e.content_type == ct && e.content_id == cid) =
      [⟨id2, pid, ct, cid, t2, c2, v2, m2⟩] ∧
    PgUniqueKeys (pg_store_embedding table pid ct cid t1 c1 v1 m1 pg1).2 ∧
    PgUniqueKeys (pg_delete_embedding table pid ct cid).2 ∧
    (pg_store_embedding (pg_store_embedding table pid ct cid t1 c1 v1 m1 pg1).2
      pid ct cid t2 c2 v2 m2 pg2).1 = some pg2 ∧
    (pg_store_embedding (pg_store_embedding table pid ct cid t1 c1 v1 m1 pg1).2
      pid ct cid t2 c2 v2 m2 pg2).2.filter
        (fun r => r.project_id == pid && r.content_type == ct && r.content_id == cid) =
      [⟨pg2, pid, ct, cid, t2, c2, v2, m2⟩] := by
  have hloc2 : (store_embedding (store_embedding embs pid ct cid t1 c1 v1 m1 id1).2
      pid ct cid t2 c2 v2 m2 id2).2 =
      (embs.filter fun e => !(e.content_type == ct && e.content_id == cid)) ++
        [⟨id2, pid, ct, cid, t2, c2, v2, m2⟩] := by
    simp only [store_embedding, List.filter_append]
    rw [filter_not_idem]
    simp
  have hpg2 : (pg_store_embedding (pg_store_embedding table pid ct cid t1 c1 v1 m1 pg1).2
      pid ct cid t2 c2 v2 m2 pg2).2 =
      (table.filter fun r =>
        !(r.project_id == pid && r.content_type == ct && r.content_id == cid)) ++
        [⟨pg2, pid, ct, cid, t2, c2, v2, m2⟩] := by
    simp only [pg_store_embedding, List.filter_append]
    rw [filter_not_idem]
    simp
  refine ⟨?_, ?_, rfl, ?_, ?_, ?_, ?_, ?_⟩
  · simp only [store_embedding]
    unfold UniqueKeys at h ⊢
    rw [List.pairwise_append]
    refine ⟨h.filter _, List.pairwise_singleton _ _, ?_⟩
    intro a ha b hb
    simp only [List.mem_singleton] at hb
    subst hb
    have hf := List.of_mem_filter ha
    simp only [Bool.not_eq_true', Bool.and_eq_false_iff, beq_eq_false_iff_ne] at hf
    rintro ⟨h1, h2⟩
    rcases hf with hf | hf
    · exact hf h1
    · exact hf h2
  · simp only [delete_embedding]
    split
    · exact h.filter _
    · exact h
  · rw [hloc2, List.filter_append, filter_after_filter_not]
    simp
  · simp only [pg_store_embedding]
    unfold PgUniqueKeys at hpg ⊢
    rw [List.pairwise_append]
    refine ⟨hpg.filter _, List.pairwise_singleton _ _, ?_⟩
    intro a ha b hb
    simp only [List.mem_singleton] at hb
    subst hb
    have hf := List.of_mem_filter ha
    simp only [Bool.not_eq_true', Bool.and_eq_false_iff, beq_eq_false_iff_ne] at hf
    rintro ⟨h1, h2, h3⟩
    rcases hf with (hf | hf) | hf
    · exact hf h1
    · exact hf h2
    · exact hf h3
  · simp only [pg_delete_embedding]
    split
    · exact hpg
    · exact hpg.filter _
  · simp only [pg_store_embedding, List.filter_append]
    rw [filter_not_idem, filter_after_filter_not]
    simp
  · rw [hpg2, List.filter_append, filter_after_filter_not]
    simp

/-- Witness for C4 on a concrete state: empty collections, two stores under
the natural key `("p1", "doc", "d1")`. -/
theorem c4_store_embedding_upsert_witness :
    (store_embedding (store_embedding [] "p1" "doc" "d1" "ta" "ca" [1] [] "i1").2
      "p1" "doc" "d1" "tb" "cb" [2] [] "i2").2.filter
        (fun e => e.content_type == "doc" && e.content_id == "d1") =
      [⟨"i2", "p1", "doc", "d1", "tb", "cb", [2], []⟩] :=
  (c4_store_embedding_upsert [] [] "p1" "doc" "d1" "ta" "ca" "tb" "cb" [1] [2] [] []
    "i1" "i2" 1 2 List.Pairwise.nil List.Pairwise.nil).2.2.2.1

theorem proj_update_filter_eq (table : List ProjRow) (pid pname : String) (active : Bool)
    (h : UniqueProjIds table) (hex : ∃ r ∈ table, r.id = pid) :
    (table.map fun r => if r.id == pid then ProjRow.mk r.id pname active else r).filter
      (fun r => r.id == pid) = [⟨pid, pname, active⟩] := by
  induction table with
  | nil => simp at hex
  | cons a l ih =>
    rcases List.pairwise_cons.mp h with ⟨hal, hl⟩
    by_cases ha : a.id = pid
    · have hnone : ∀ r ∈ l, (r.id == pid) = false := by
        intro r hr
        have := hal r hr
        rw [ha] at this
        simp [Ne.symm this]
      have hmap : (l.map fun r => if r.id == pid then ProjRow.mk r.id pname active else r).filter
          (fun r => r.id == pid) = [] := by
        rw [List.filter_eq_nil_iff]
        intro b hb
        obtain ⟨r, hr, rfl⟩ := List.mem_map.mp hb
        simp [hnone r hr]
      simp only [List.map_cons, List.filter_cons, if_pos (by exact beq_iff_eq.mpr ha)]
      rw [hmap, ha]
    · have hb : (a.id == pid) = false := by simp [ha]
      simp only [List.map_cons, hb, if_false, List.filter_cons, Bool.false_eq_true]
      rw [ih hl]
      rcases hex with ⟨r, hr, hrid⟩
      rcases List.mem_cons.mp hr with rfl | hr2
      · exact absurd hrid ha
      · exact ⟨r, hr2, hrid⟩

theorem proj_update_filter_not_eq (table : List ProjRow) (pid pname : String) (active : Bool) :
    (table.map fun r => if r.id == pid then ProjRow.mk r.id pname active else r).filter
      (fun r => !(r.id == pid)) = table.filter fun r => !(r.id == pid) := by
  rw [List.filter_map]
  rw [List.filter_congr (q := fun r => !(r.id == pid)) ?hq]
  case hq =>
    intro r _
    by_cases hr : r.id = pid
    · simp [Function.comp, hr]
    · simp [Function.comp, hr]
  have hid : ∀ r ∈ table.filter fun r => !(r.id == pid),
      (fun r => if r.id == pid then ProjRow.mk r.id pname active else r) r = id r := by
    intro r hr
    have := List.of_mem_filter hr
    simp only [Bool.not_eq_true'] at this
    simp [this]
  rw [List.map_congr_left hid, List.map_id]

/-- Claim C9: `create_or_update_project` returns `True` exactly when no
project with the id existed (an insert), `False` exactly when one existed
(an in-place update of name and active flag); afterwards exactly one project
with that id exists, carrying the new name and flag, and all other rows are
untouched. -/
theorem c9_create_or_update_project (table : List ProjRow) (pid pname : String) (active : Bool)
    (h : UniqueProjIds table) :
    ((create_or_update_project table pid pname active).1 = true ↔ ∀ r ∈ table, r.id ≠ pid) ∧
    ((create_or_update_project table pid pname active).1 = false ↔ ∃ r ∈ table, r.id = pid) ∧
    (create_or_update_project table pid pname active).2.filter (fun r => r.id == pid) =
      [⟨pid, pname, active⟩] ∧
    (create_or_update_project table pid pname active).2.filter (fun r => !(r.id == pid)) =
      table.filter fun r => !(r.id == pid) := by
  by_cases hempty : (table.filter fun r => r.id == pid) = []
  · have hnone : ∀ r ∈ table, r.id ≠ pid := by
      intro r hr
      have := List.filter_eq_nil_iff.mp hempty r hr
      simpa using this
    have hres : create_or_update_project table pid pname active =
        (true, table ++ [⟨pid, pname, active⟩]) := by
      simp only [create_or_update_project, hempty, List.isEmpty_nil, if_true]
    rw [hres]
    refine ⟨⟨fun _ => hnone, fun _ => rfl⟩, ?_, ?_, ?_⟩
    · constructor
      · intro hfalse
        exact absurd hfalse (by simp)
      · rintro ⟨r, hr, hrid⟩
        exact absurd hrid (hnone r hr)
    · rw [List.filter_append, hempty]
      simp
    · rw [List.filter_append]
      simp
  · have hex : ∃ r ∈ table, r.id = pid := by
      rcases List.exists_mem_of_ne_nil _ hempty with ⟨r, hr⟩
      exact ⟨r, List.mem_of_mem_filter hr, by simpa using List.of_mem_filter hr⟩
    have hres : create_or_update_project table pid pname active =
        (false, table.map fun r => if r.id == pid then ProjRow.mk r.id pname active else r) := by
      simp only [create_or_update_project]
      rw [if_neg (by simpa [List.isEmpty_iff] using hempty)]
    rw [hres]
    refine ⟨?_, by simpa using hex, ?_, ?_⟩
    · constructor
      · intro htrue
        exact absurd htrue (by simp)
      · intro hall
        rcases hex with ⟨r, hr, hrid⟩
        exact absurd hrid (hall r hr)
    · exact proj_update_filter_eq table pid pname active h hex
    · exact proj_update_filter_not_eq table pid pname active

/-- Witness for C9: inserting into an empty table gives `True` and exactly
that one project row. -/
theorem c9_create_or_update_project_witness :
    (create_or_update_project [] "p1" "Proj" true).2.filter (fun r => r.id == "p1") =
      [⟨"p1", "Proj", true⟩] :=
  (c9_create_or_update_project [] "p1" "Proj" true List.Pairwise.nil).2.2.1

/-- Claim C1 (code bug, evaluated at the failing input): on a key with no
live record, `delete_embedding` and `delete_file` return `False` on both
backends, as the claim states; but `delete_faq` and `delete_kb_article`
return `True` even though no row was removed — `DatabaseInterface.execute`
returns `None` on both backends, so the `hasattr(result, 'rowcount')` test
fails and the `else True` branch is taken unconditionally. -/
theorem c1_delete_missing_key :
    (delete_embedding [] "doc" "missing").1 = false ∧
    (pg_delete_embedding [] "p1" "doc" "missing").1 = false ∧
    (local_delete_file ⟨[], []⟩ "missing").1 = false ∧
    (pg_delete_file [] "p1" "missing").1 = false ∧
    delete_faq [⟨"f1", "p1", "q", "a", "", "manual", none, []⟩] "p1" "missing" =
      (true, [⟨"f1", "p1", "q", "a", "", "manual", none, []⟩]) ∧
    delete_kb_article [⟨"k1", "p1", "t", "c", "", "manual", none, []⟩] "p1" "missing" =
      (true, [⟨"k1", "p1", "t", "c", "", "manual", none, []⟩]) := by
  refine ⟨rfl, rfl, rfl, rfl, ?_, ?_⟩ <;> simp [delete_faq, delete_kb_article, executeRet]

/-- Claim C10: when a scope's collection file is absent, unreadable or
invalid JSON, loading yields the empty collection, so for every key the read
operations return empty lists and the delete operations return `False`,
with no error. -/
theorem c10_corrupt_collection_degrades (f : JsonFile (List EmbRec))
    (g : JsonFile (List (String × FileMeta)))
    (hf : ∀ l, f ≠ JsonFile.ok l) (hg : ∀ m, g ≠ JsonFile.ok m)
    (ct : Option String) (ctype cid fileId : String) (query : List ℚ)
    (limit : Nat) (threshold : ℚ) (blobs : List (String × List Nat)) :
    get_embeddings (load_embeddings f) ct = [] ∧
    search_similar (load_embeddings f) query limit threshold = [] ∧
    (delete_embedding (load_embeddings f) ctype cid).1 = false ∧
    local_list_files ⟨blobs, load_metadata g⟩ ct = [] ∧
    (local_delete_file ⟨blobs, load_metadata g⟩ fileId).1 = false := by
  have hf0 : load_embeddings f = [] := by
    cases f with
    | ok l => exact absurd rfl (hf l)
    | absent => rfl
    | unreadable => rfl
    | invalid => rfl
  have hg0 : load_metadata g = [] := by
    cases g with
    | ok m => exact absurd rfl (hg m)
    | absent => rfl
    | unreadable => rfl
    | invalid => rfl
  rw [hf0, hg0]
  refine ⟨?_, ?_, rfl, ?_, rfl⟩
  · cases ct <;> rfl
  · simp [search_similar]
  · cases ct <;> rfl

/-- Witness for C10 at the concrete file states `absent`/`invalid`. -/
theorem c10_corrupt_collection_degrades_witness :
    get_embeddings (load_embeddings JsonFile.absent) (some "doc") = [] ∧
    search_similar (load_embeddings JsonFile.invalid) [1] 10 0 = [] ∧
    (local_delete_file ⟨[("b", [0])], load_metadata JsonFile.unreadable⟩ "x").1 = false := by
  have h := c10_corrupt_collection_degrades JsonFile.absent JsonFile.unreadable
    (fun l h => by cases h) (fun m h => by cases h)
    (some "doc") "doc" "d1" "x" [1] 10 0 [("b", [0])]
  have h2 := c10_corrupt_collection_degrades JsonFile.invalid JsonFile.unreadable
    (fun l h => by cases h) (fun m h => by cases h)
    (some "doc") "doc" "d1" "x" [1] 10 0 [("b", [0])]
  exact ⟨h.1, h2.2.1, h.2.2.2.2⟩

theorem charToSix_sixToChar : ∀ n, n < 64 → charToSix (sixToChar n) = some n := by decide

theorem sixToChar_ne_pad : ∀ n, n < 64 → sixToChar n ≠ '=' := by decide

/-- `b64decode` is a left inverse of `b64encode` on byte sequences. -/
theorem b64_roundtrip : ∀ bs : List Nat, (∀ b ∈ bs, b < 256) →
    b64decode (b64encode bs) = some bs
  | [], _ => rfl
  | [a], h => by
    have ha : a < 256 := h a (by simp)
    have h1 : a / 4 < 64 := by omega
    have h2 : a % 4 * 16 < 64 := by omega
    simp only [b64encode, b64decode, charToSix_sixToChar _ h1, charToSix_sixToChar _ h2,
      List.isEmpty_nil, Bool.and_true, if_pos rfl]
    simp
    omega
  | [a, b], h => by
    have ha : a < 256 := h a (by simp)
    have hb : b < 256 := h b (by simp)
    have h1 : a / 4 < 64 := by omega
    have h2 : a % 4 * 16 + b / 16 < 64 := by omega
    have h3 : b % 16 * 4 < 64 := by omega
    simp only [b64encode, b64decode, charToSix_sixToChar _ h1, charToSix_sixToChar _ h2,
      charToSix_sixToChar _ h3, if_neg (sixToChar_ne_pad _ h3), List.isEmpty_nil, if_pos rfl]
    simp
    omega
  | a :: b :: c :: rest, h => by
    have ha : a < 256 := h a (by simp)
    have hb : b < 256 := h b (by simp)
    have hc : c < 256 := h c (by simp)
    have h1 : a / 4 < 64 := by omega
    have h2 : a % 4 * 16 + b / 16 < 64 := by omega
    have h3 : b % 16 * 4 + c / 64 < 64 := by omega
    have h4 : c % 64 < 64 := by omega
    have ih := b64_roundtrip rest fun x hx => h x (by simp [hx])
    simp only [b64encode, b64decode, charToSix_sixToChar _ h1, charToSix_sixToChar _ h2,
      charToSix_sixToChar _ h3, charToSix_sixToChar _ h4,
      if_neg (sixToChar_ne_pad _ h3), if_neg (sixToChar_ne_pad _ h4), ih, Option.map_some]
    simp
    omega

/-- Claim C7: `store_file` followed by `retrieve_file` on the returned file id
yields byte-for-byte identical content and the caller's original filename
verbatim, on both the local-filesystem backend (whose storage-internal
filename differs from the original) and the base64-inline PostgreSQL backend.
For the PostgreSQL backend the fresh file id must not collide with an
existing row (`uuid.uuid4()` freshness), and the bytes are bytes
(below 256). -/
theorem c7_store_retrieve_roundtrip (st : LocalAttachState) (table : List PgAttachRow)
    (pid ctype cid filename : String) (content : List Nat) (mime : Option String)
    (fileId : String)
    (hbytes : ∀ b ∈ content, b < 256)
    (hfresh : ∀ r ∈ table, ¬(r.project_id = pid ∧ r.file_id = fileId)) :
    local_retrieve_file
        (local_store_file st pid ctype cid filename content mime fileId).2
        (local_store_file st pid ctype cid filename content mime fileId).1 =
      some (content, mime, filename) ∧
    pg_retrieve_file
        (pg_store_file table pid ctype cid filename content mime fileId).2 pid
        (pg_store_file table pid ctype cid filename content mime fileId).1 =
      some (content, mime, filename) := by
  constructor
  · simp [local_store_file, local_retrieve_file, List.lookup]
  · have hfilter : (pg_store_file table pid ctype cid filename content mime fileId).2.filter
        (fun r => r.project_id == pid && r.file_id == fileId) =
        [⟨fileId, pid, ctype, cid, filename, filename, mime, content.length,
          b64encode content⟩] := by
      simp only [pg_store_file, List.filter_append]
      rw [List.filter_eq_nil_iff.mpr ?hnil]
      case hnil =>
        intro r hr
        have := hfresh r hr
        simp only [Bool.and_eq_true, beq_iff_eq]
        rintro ⟨h1, h2⟩
        exact this ⟨h1, h2⟩
      simp
    unfold pg_retrieve_file
    rw [show (pg_store_file table pid ctype cid filename content mime fileId).1 = fileId
      from rfl]
    rw [hfilter]
    show (b64decode (b64encode content)).map (fun bytes => (bytes, mime, filename)) =
      some (content, mime, filename)
    rw [b64_roundtrip content hbytes]
    rfl

/-- Witness for C7 at a concrete store: empty states, two content bytes, a
filename with an extension. -/
theorem c7_store_retrieve_roundtrip_witness :
    local_retrieve_file
        (local_store_file ⟨[], []⟩ "p1" "doc" "d1" "a.txt" [104, 105] (some "text/plain") "f1").2
        (local_store_file ⟨[], []⟩ "p1" "doc" "d1" "a.txt" [104, 105] (some "text/plain") "f1").1 =
      some ([104, 105], some "text/plain", "a.txt") ∧
    pg_retrieve_file
        (pg_store_file [] "p1" "doc" "d1" "a.txt" [104, 105] (some "text/plain") "f1").2 "p1"
        (pg_store_file [] "p1" "doc" "d1" "a.txt" [104, 105] (some "text/plain") "f1").1 =
      some ([104, 105], some "text/plain", "a.txt") :=
  c7_store_retrieve_roundtrip ⟨[], []⟩ [] "p1" "doc" "d1" "a.txt" [104, 105]
    (some "text/plain") "f1" (by decide) (by simp)

/-- Claim C5 counterexample: the `pathSubstring` filter is not a
case-sensitive substring test.  The code builds the SQL condition
`path LIKE '%' + path + '%'`, and SQLite's default `LIKE` is
case-insensitive for ASCII: the filter `"api"` keeps the trace whose path is
`"/API"`, although `"api"` does not occur in `"/API"` as a case-sensitive
substring (and a `%` or `_` inside the argument would act as a wildcard). -/
theorem c5_list_traces_counterexample :
    list_traces
        [⟨"t1", "2024-01-01T00:00:00Z", "GET", "/API", 200, 1, "1.1.1.1", "ua",
          "", "", "", none, none⟩] none 10 none (some "api") none none none =
      [⟨"t1", "2024-01-01T00:00:00Z", "GET", "/API", 200, 1, "1.1.1.1", "ua",
        "", "", "", none, none⟩] ∧
    isSubstr "api".toList "/API".toList = false := by
  constructor
  · have hk : traceKeep none none (some "api") none none none
        ⟨"t1", "2024-01-01T00:00:00Z", "GET", "/API", 200, 1, "1.1.1.1", "ua",
          "", "", "", none, none⟩ = true := by decide
    unfold list_traces
    rw [List.filter_cons, if_pos hk]
    simp only [List.filter_nil, List.mergeSort_singleton]
    rfl
  · decide

theorem ts_desc_trans (a b c : TraceRow) (h1 : decide (b.ts ≤ a.ts) = true)
    (h2 : decide (c.ts ≤ b.ts) = true) : decide (c.ts ≤ a.ts) = true := by
  simp only [decide_eq_true_eq] at *
  exact le_trans h2 h1

theorem ts_desc_total (a b : TraceRow) :
    decide (b.ts ≤ a.ts) || decide (a.ts ≤ b.ts) := by
  rcases le_total b.ts a.ts with h | h <;> simp [h]

/-- Claim C5 (amended): `list_traces` returns exactly the traces satisfying
the conjunction of all supplied optional filters — with the path filter
interpreted as the SQL `LIKE '%path%'` match (ASCII case-insensitive, with
`%`/`_` wildcards) rather than a case-sensitive substring — ordered by
timestamp descending (ties in table order, i.e. the `limit`-prefix of the
stable insertion sort), truncated to `limit`; an empty match set yields an
empty list, never an error. -/
theorem c5_list_traces_spec (traces : List TraceRow) (since : Option String) (limit : Nat)
    (status : Option Int) (path : Option String) (ip : Option String)
    (has_error : Option Bool) (cut : Option String) :
    (list_traces traces since limit status path ip has_error cut).length ≤ limit ∧
    (∀ tr ∈ list_traces traces since limit status path ip has_error cut,
      tr ∈ traces ∧ traceKeep since status path ip has_error cut tr = true) ∧
    (list_traces traces since limit status path ip has_error cut).Pairwise
      (fun a b => b.ts ≤ a.ts) ∧
    list_traces traces since limit status path ip has_error cut =
      (List.insertionSort (fun a b : TraceRow => decide (b.ts ≤ a.ts) = true)
        (traces.filter (traceKeep since status path ip has_error cut))).take limit ∧
    ((traces.filter (traceKeep since status path ip has_error cut)).length ≤ limit →
      (list_traces traces since limit status path ip has_error cut).Perm
        (traces.filter (traceKeep since status path ip has_error cut))) ∧
    (traces.filter (traceKeep since status path ip has_error cut) = [] →
      list_traces traces since limit status path ip has_error cut = []) := by
  have hdef : list_traces traces since limit status path ip has_error cut =
      ((traces.filter (traceKeep since status path ip has_error cut)).mergeSort
        fun a b => decide (b.ts ≤ a.ts)).take limit := rfl
  set kept := traces.filter (traceKeep since status path ip has_error cut) with hkept
  refine ⟨?_, ?_, ?_, ?_, ?_, ?_⟩
  · rw [hdef]; exact List.length_take_le _ _
  · intro tr htr
    rw [hdef] at htr
    have h1 := List.mem_mergeSort.mp (List.take_subset _ _ htr)
    exact ⟨List.mem_of_mem_filter h1, List.of_mem_filter h1⟩
  · rw [hdef]
    have hs := @List.sorted_mergeSort TraceRow (fun a b => decide (b.ts ≤ a.ts))
      ts_desc_trans ts_desc_total kept
    exact (hs.sublist (List.take_sublist limit _)).imp fun h => decide_eq_true_eq.mp h
  · rw [hdef, mergeSort_eq_insertionSort_stable _ ts_desc_trans ts_desc_total]
  · intro hlen
    rw [hdef, List.take_of_length_le (by rw [List.length_mergeSort]; exact hlen)]
    exact List.mergeSort_perm kept _
  · intro hnil
    rw [hdef, hnil, List.mergeSort_nil, List.take_nil]

/-- Witness for C5 at a concrete state: a one-trace table where the status
filter `404` matches nothing, so the result is empty. -/
theorem c5_list_traces_spec_witness :
    list_traces
        [⟨"t1", "2024-01-01T00:00:00Z", "GET", "/a", 200, 1, "1.1.1.1", "ua",
          "", "", "", none, none⟩] none 10 (some 404) none none none none = [] :=
  (c5_list_traces_spec
    [⟨"t1", "2024-01-01T00:00:00Z", "GET", "/a", 200, 1, "1.1.1.1", "ua",
      "", "", "", none, none⟩] none 10 (some 404) none none none none).2.2.2.2.2
    (by decide)

theorem any_key_eq_mem (acc : List (String × Nat)) (p : String) :
    (acc.any fun kv => kv.1 == p) = decide (p ∈ acc.map Prod.fst) := by
  induction acc with
  | nil => rfl
  | cons kv l ih =>
    rw [List.any_cons, ih, List.map_cons]
    by_cases h : kv.1 = p
    · simp [h]
    · have h1 : (kv.1 == p) = false := by simp [h]
      have h2 : (p == kv.1) = false := by simp [Ne.symm h]
      simp [h1, h2]

theorem addPath_keys (acc : List (String × Nat)) (p : String) :
    (addPath acc p).map Prod.fst =
      if p ∈ acc.map Prod.fst then acc.map Prod.fst else acc.map Prod.fst ++ [p] := by
  unfold addPath
  rw [any_key_eq_mem]
  by_cases h : p ∈ acc.map Prod.fst
  · rw [if_pos (by simp [h]), if_pos h, List.map_map]
    apply List.map_congr_left
    intro kv _
    by_cases hk : kv.1 = p <;> simp [hk]
  · rw [if_neg (by simp [h]), if_neg h]
    simp

theorem pathCounts_keys_go : ∀ (rows : List TraceRow) (acc : List (String × Nat)),
    ((rows.foldl (fun a r => addPath a r.path) acc).map Prod.fst) =
      (rows.map fun r => r.path).foldl
        (fun ks p => if p ∈ ks then ks else ks ++ [p]) (acc.map Prod.fst)
  | [], _ => rfl
  | r :: rs, acc => by
    rw [List.foldl_cons, List.map_cons, List.foldl_cons, pathCounts_keys_go rs _, addPath_keys]

/-- The keys of the `top_paths` accumulation are the paths in first-seen
order. -/
theorem pathCounts_keys (rows : List TraceRow) :
    (pathCounts rows).map Prod.fst = firstSeen (rows.map fun r => r.path) :=
  pathCounts_keys_go rows []

theorem firstSeen_go_nodup : ∀ (l : List String) (acc : List String), acc.Nodup →
    (l.foldl (fun ks p => if p ∈ ks then ks else ks ++ [p]) acc).Nodup
  | [], _, h => h
  | p :: ps, acc, h => by
    rw [List.foldl_cons]
    by_cases hp : p ∈ acc
    · rw [if_pos hp]
      exact firstSeen_go_nodup ps acc h
    · rw [if_neg hp]
      exact firstSeen_go_nodup ps _ (by simp [List.nodup_append, h, hp])

theorem firstSeen_nodup (l : List String) : (firstSeen l).Nodup :=
  firstSeen_go_nodup l [] List.nodup_nil

theorem pathCounts_keys_nodup (rows : List TraceRow) :
    ((pathCounts rows).map Prod.fst).Nodup := by
  rw [pathCounts_keys]
  exact firstSeen_nodup _

theorem filter_key_of_mem_nodup (acc : List (String × Nat)) (kv : String × Nat)
    (h : (acc.map Prod.fst).Nodup) (hm : kv ∈ acc) :
    acc.filter (fun x => x.1 == kv.1) = [kv] := by
  induction acc with
  | nil => cases hm
  | cons a l ih =>
    rw [List.map_cons, List.nodup_cons] at h
    rcases List.mem_cons.mp hm with rfl | hm2
    · rw [List.filter_cons, if_pos (by simp)]
      have hnil : l.filter (fun x => x.1 == kv.1) = [] := by
        rw [List.filter_eq_nil_iff]
        intro b hb hbeq
        exact h.1 (by
          rw [show kv.1 = b.1 from (beq_iff_eq.mp hbeq).symm]
          exact List.mem_map_of_mem Prod.fst hb)
      rw [hnil]
    · rw [List.filter_cons]
      have ha : (a.1 == kv.1) = false := by
        have : a.1 ≠ kv.1 := fun hcon => h.1 (hcon ▸ List.mem_map_of_mem Prod.fst hm2)
        simp [this]
      rw [if_neg (by simp [ha])]
      exact ih h.2 hm2

theorem addPath_keys_nodup (acc : List (String × Nat)) (p : String)
    (h : (acc.map Prod.fst).Nodup) : ((addPath acc p).map Prod.fst).Nodup := by
  rw [addPath_keys]
  by_cases hm : p ∈ acc.map Prod.fst
  · rw [if_pos hm]
    exact h
  · rw [if_neg hm]
    simp [List.nodup_append, h, hm]

theorem addPath_count (acc : List (String × Nat)) (q p : String)
    (h : (acc.map Prod.fst).Nodup) :
    (((addPath acc q).filter fun kv => kv.1 == p).map Prod.snd).sum =
      ((acc.filter fun kv => kv.1 == p).map Prod.snd).sum + (if q = p then 1 else 0) := by
  unfold addPath
  by_cases hany : (acc.any fun kv => kv.1 == q) = true
  · rw [if_pos hany]
    obtain ⟨kv0, hkv0, hkq⟩ := List.any_eq_true.mp hany
    have hkey : ∀ kv : String × Nat,
        ((if kv.1 == q then (kv.1, kv.2 + 1) else kv) : String × Nat).1 = kv.1 := by
      intro kv
      by_cases hk : kv.1 = q <;> simp [hk]
    rw [List.filter_map]
    rw [List.filter_congr (fun kv _ => by rw [Function.comp_apply, hkey kv])]
    by_cases hq : q = p
    · subst hq
      have hq2 : kv0.1 = q := beq_iff_eq.mp hkq
      rw [← hq2]
      rw [filter_key_of_mem_nodup acc kv0 h hkv0]
      simp
    · have hid : ∀ kv ∈ acc.filter fun kv => kv.1 == p,
          (if kv.1 == q then ((kv.1, kv.2 + 1) : String × Nat) else kv) = id kv := by
        intro kv hkv
        have h0 := List.of_mem_filter (p := fun kv : String × Nat => kv.1 == p) hkv
        have hkp : kv.1 = p := by simpa using h0
        have hne : (kv.1 == q) = false := by
          rw [hkp]
          exact beq_eq_false_iff_ne.mpr fun hc => hq hc.symm
        simp [hne]
      rw [List.map_congr_left hid, List.map_id, if_neg hq]
      simp
  · rw [if_neg hany, List.filter_append, List.map_append, List.sum_append]
    by_cases hq : q = p
    · subst hq
      simp
    · have hne : (q == p) = false := by simp [hq]
      rw [show (List.filter (fun kv => kv.1 == p) [(q, 1)]) = [] from by simp [hne]]
      simp [hq]

theorem pathCounts_count_go : ∀ (rows : List TraceRow) (acc : List (String × Nat)) (p : String),
    (acc.map Prod.fst).Nodup →
    (((rows.foldl (fun a r => addPath a r.path) acc).filter fun kv => kv.1 == p).map
      Prod.snd).sum =
      ((acc.filter fun kv => kv.1 == p).map Prod.snd).sum + rows.countP fun r => r.path == p
  | [], acc, p, _ => by simp
  | r :: rs, acc, p, h => by
    rw [List.foldl_cons, List.countP_cons,
      pathCounts_count_go rs (addPath acc r.path) p (addPath_keys_nodup acc r.path h),
      addPath_count acc r.path p h]
    by_cases hr : r.path = p
    · simp [hr]
      omega
    · have hne : (r.path == p) = false := by simp [hr]
      simp [hr, hne]

/-- Every `(path, count)` pair accumulated by `metrics_summary` carries the
exact number of window rows with that path. -/
theorem pathCounts_count (rows : List TraceRow) (pc : String × Nat)
    (hm : pc ∈ pathCounts rows) : pc.2 = rows.countP fun r => r.path == pc.1 := by
  have h1 := pathCounts_count_go rows [] pc.1 List.nodup_nil
  have h2 : rows.foldl (fun a r => addPath a r.path) [] = pathCounts rows := rfl
  rw [h2, filter_key_of_mem_nodup (pathCounts rows) pc (pathCounts_keys_nodup rows) hm] at h1
  simpa using h1

theorem cnt_desc_trans (a b c : String × Nat) (h1 : decide (b.2 ≤ a.2) = true)
    (h2 : decide (c.2 ≤ b.2) = true) : decide (c.2 ≤ a.2) = true := by
  simp only [decide_eq_true_eq] at *
  omega

theorem cnt_desc_total (a b : String × Nat) : decide (b.2 ≤ a.2) || decide (a.2 ≤ b.2) := by
  rcases Nat.le_total b.2 a.2 with h | h <;> simp [h]

theorem lat_asc_trans (a b c : ℚ) (h1 : decide (a ≤ b) = true)
    (h2 : decide (b ≤ c) = true) : decide (a ≤ c) = true := by
  simp only [decide_eq_true_eq] at *
  exact le_trans h1 h2

theorem lat_asc_total (a b : ℚ) : decide (a ≤ b) || decide (b ≤ a) := by
  rcases le_total a b with h | h <;> simp [h]

theorem bucket_sum (rows : List TraceRow) :
    (rows.countP fun r => 200 ≤ r.status && r.status < 300) +
      (rows.countP fun r => 400 ≤ r.status && r.status < 500) +
      (rows.countP fun r => 500 ≤ r.status && r.status < 600) =
      rows.countP fun r => (200 ≤ r.status && r.status < 300) ||
        (400 ≤ r.status && r.status < 500) || (500 ≤ r.status && r.status < 600) := by
  induction rows with
  | nil => rfl
  | cons a l ih =>
    simp only [List.countP_cons, Bool.and_eq_true, Bool.or_eq_true, decide_eq_true_eq]
    split_ifs <;> omega

/-- Claim C6 counterexample: a trace with status `301` lies inside 200–599,
so by the claim it should be counted into exactly one of the 2xx/4xx/5xx
buckets; the code counts it into none of them (the bucket conditions skip
300–399 entirely). -/
theorem c6_metrics_summary_counterexample :
    (metrics_summary [⟨"t1", "ts", "GET", "/x", 301, 1, "ip", "ua", "", "", "", none, none⟩]
      60).total = 1 ∧
    (200 : Int) ≤ 301 ∧ (301 : Int) ≤ 599 ∧
    (metrics_summary [⟨"t1", "ts", "GET", "/x", 301, 1, "ip", "ua", "", "", "", none, none⟩]
        60).by2xx +
      (metrics_summary [⟨"t1", "ts", "GET", "/x", 301, 1, "ip", "ua", "", "", "", none, none⟩]
        60).by4xx +
      (metrics_summary [⟨"t1", "ts", "GET", "/x", 301, 1, "ip", "ua", "", "", "", none, none⟩]
        60).by5xx = 0 :=
  ⟨rfl, by decide, by decide, rfl⟩

/-- Claim C6 (amended): `metrics_summary` reports the window row count as
`total`; buckets `2xx`/`4xx`/`5xx` count exactly the statuses in 200–299,
400–499 and 500–599 — statuses outside those three ranges, including the
3xx range, are counted in `total` but in no bucket; `unauthorized` counts
status 401; `top_paths` is the 10-prefix of the stable descending sort by
count of the per-path counts accumulated in first-seen order, each pair
carrying the exact occurrence count; and the 95th-percentile latency is the
element at index `floor(0.95 * (n - 1))` of the ascending-sorted latency
list, `none` when the window is empty. -/
theorem c6_metrics_summary_spec (rows : List TraceRow) (ws : Nat) :
    (metrics_summary rows ws).total = rows.length ∧
    (metrics_summary rows ws).by2xx =
      (rows.filter fun r => 200 ≤ r.status && r.status < 300).length ∧
    (metrics_summary rows ws).by4xx =
      (rows.filter fun r => 400 ≤ r.status && r.status < 500).length ∧
    (metrics_summary rows ws).by5xx =
      (rows.filter fun r => 500 ≤ r.status && r.status < 600).length ∧
    (metrics_summary rows ws).by2xx + (metrics_summary rows ws).by4xx +
        (metrics_summary rows ws).by5xx =
      (rows.countP fun r => (200 ≤ r.status && r.status < 300) ||
        (400 ≤ r.status && r.status < 500) || (500 ≤ r.status && r.status < 600)) ∧
    (∀ r ∈ rows, 300 ≤ r.status → r.status < 400 →
      ((200 ≤ r.status && r.status < 300) || (400 ≤ r.status && r.status < 500) ||
        (500 ≤ r.status && r.status < 600)) = false) ∧
    (metrics_summary rows ws).unauthorized = (rows.filter fun r => r.status == 401).length ∧
    (metrics_summary rows ws).top_paths.length ≤ 10 ∧
    (metrics_summary rows ws).top_paths =
      (List.insertionSort (fun a b : String × Nat => decide (b.2 ≤ a.2) = true)
        (pathCounts rows)).take 10 ∧
    (pathCounts rows).map Prod.fst = firstSeen (rows.map fun r => r.path) ∧
    (∀ pc ∈ (metrics_summary rows ws).top_paths,
      pc.2 = rows.countP fun r => r.path == pc.1) ∧
    (metrics_summary rows ws).top_paths.Pairwise (fun a b => b.2 ≤ a.2) ∧
    (rows = [] → (metrics_summary rows ws).p95_latency_ms = none) ∧
    (rows ≠ [] → ∀ L : List ℚ, L.Perm (rows.map fun r => r.latency_ms) →
      L.Pairwise (· ≤ ·) →
      (metrics_summary rows ws).p95_latency_ms =
        some (L.getD (19 * (rows.length - 1) / 20) 0)) := by
  have htop : (metrics_summary rows ws).top_paths =
      ((pathCounts rows).mergeSort fun a b => decide (b.2 ≤ a.2)).take 10 := rfl
  refine ⟨rfl, ?_, ?_, ?_, bucket_sum rows, ?_, ?_, ?_, ?_, pathCounts_keys rows, ?_, ?_,
    ?_, ?_⟩
  · exact List.countP_eq_length_filter _ _
  · exact List.countP_eq_length_filter _ _
  · exact List.countP_eq_length_filter _ _
  · intro r _ h1 h2
    rw [Bool.eq_false_iff]
    intro hcon
    simp only [Bool.or_eq_true, Bool.and_eq_true, decide_eq_true_eq] at hcon
    omega
  · exact List.countP_eq_length_filter _ _
  · rw [htop]
    exact List.length_take_le _ _
  · rw [htop, mergeSort_eq_insertionSort_stable _ cnt_desc_trans cnt_desc_total]
  · intro pc hpc
    rw [htop] at hpc
    exact pathCounts_count rows pc (List.mem_mergeSort.mp (List.take_subset _ _ hpc))
  · rw [htop]
    have hs := @List.sorted_mergeSort (String × Nat) (fun a b => decide (b.2 ≤ a.2))
      cnt_desc_trans cnt_desc_total (pathCounts rows)
    exact (hs.sublist (List.take_sublist 10 _)).imp fun h => decide_eq_true_eq.mp h
  · intro h
    subst h
    rfl
  · intro hne L hperm hsort
    show (if (rows.map fun r => r.latency_ms).length = 0 then none
      else some (((rows.map fun r => r.latency_ms).mergeSort fun a b =>
        decide (a ≤ b)).getD
          (19 * ((rows.map fun r => r.latency_ms).length - 1) / 20) 0)) =
      some (L.getD (19 * (rows.length - 1) / 20) 0)
    rw [List.length_map]
    rw [if_neg (by simpa using hne)]
    have hsorted : ((rows.map fun r => r.latency_ms).mergeSort fun a b =>
        decide (a ≤ b)).Pairwise (· ≤ ·) := by
      have hs := @List.sorted_mergeSort ℚ (fun a b => decide (a ≤ b))
        lat_asc_trans lat_asc_total (rows.map fun r => r.latency_ms)
      exact hs.imp fun h => decide_eq_true_eq.mp h
    have hpm : ((rows.map fun r => r.latency_ms).mergeSort fun a b =>
        decide (a ≤ b)).Perm L :=
      (List.mergeSort_perm _ _).trans hperm.symm
    rw [List.eq_of_perm_of_sorted hpm hsorted hsort]

/-- Witness for C6 at the spec's own example window of statuses 200, 404
and 401. -/
theorem c6_metrics_summary_spec_witness :
    (metrics_summary
      [⟨"t1", "ts1", "GET", "/a", 200, 1, "ip", "ua", "", "", "", none, none⟩,
       ⟨"t2", "ts2", "GET", "/b", 404, 1, "ip", "ua", "", "", "", none, none⟩,
       ⟨"t3", "ts3", "GET", "/c", 401, 1, "ip", "ua", "", "", "", none, none⟩] 60).by4xx =
      (([⟨"t1", "ts1", "GET", "/a", 200, 1, "ip", "ua", "", "", "", none, none⟩,
        ⟨"t2", "ts2", "GET", "/b", 404, 1, "ip", "ua", "", "", "", none, none⟩,
        ⟨"t3", "ts3", "GET", "/c", 401, 1, "ip", "ua", "", "", "", none, none⟩] :
          List TraceRow).filter
          fun r => 400 ≤ r.status && r.status < 500).length :=
  (c6_metrics_summary_spec
    [⟨"t1", "ts1", "GET", "/a", 200, 1, "ip", "ua", "", "", "", none, none⟩,
     ⟨"t2", "ts2", "GET", "/b", 404, 1, "ip", "ua", "", "", "", none, none⟩,
     ⟨"t3", "ts3", "GET", "/c", 401, 1, "ip", "ua", "", "", "", none, none⟩] 60).2.2.1

theorem upsert_faqs_props : ∀ (entries : List FaqEntry) (table : List FaqRow) (pid : String)
    (gen : Nat → String) (k : Nat),
    (FaqUniqueKeys table → FaqUniqueKeys (upsert_faqs table pid entries gen k).2) ∧
    (upsert_faqs table pid entries gen k).1.1.length +
      (upsert_faqs table pid entries gen k).1.2.length = entries.length ∧
    (upsert_faqs table pid entries gen k).1.1.Sublist
      (resolvedIds (entries.map fun e => e.id) gen k) ∧
    (upsert_faqs table pid entries gen k).1.2.Sublist
      (resolvedIds (entries.map fun e => e.id) gen k)
  | [], table, pid, gen, k =>
    ⟨fun h => h, rfl, List.nil_sublist _, List.nil_sublist _⟩
  | e :: es, table, pid, gen, k => by
    simp only [upsert_faqs]
    by_cases hex : ((table.filter fun r =>
        r.id == resolveId e.id gen k && r.project_id == pid).isEmpty) = true
    · rw [if_pos hex]
      have ih := upsert_faqs_props es
        (table ++ [⟨resolveId e.id gen k, pid, e.question, e.answer, e.tags, e.source,
          e.source_file, e.metadata⟩]) pid gen (if usesGen e.id then k + 1 else k)
      refine ⟨fun h => ih.1 ?_, ?_, ?_, ?_⟩
      · unfold FaqUniqueKeys at h ⊢
        rw [List.pairwise_append]
        refine ⟨h, List.pairwise_singleton _ _, ?_⟩
        intro a ha b hb
        simp only [List.mem_singleton] at hb
        subst hb
        have hnil : table.filter (fun r =>
            r.id == resolveId e.id gen k && r.project_id == pid) = [] := by
          simpa [List.isEmpty_iff] using hex
        have := List.filter_eq_nil_iff.mp hnil a ha
        simp only [Bool.and_eq_true, beq_iff_eq] at this
        rintro ⟨h1, h2⟩
        exact this ⟨h1, h2⟩
      · simp only [List.length_cons, List.map_cons, resolvedIds]
        have := ih.2.1
        omega
      · simp only [List.map_cons, resolvedIds]
        exact (ih.2.2.1).cons₂ _
      · simp only [List.map_cons, resolvedIds]
        exact (ih.2.2.2).cons _
    · rw [if_neg hex]
      have ih := upsert_faqs_props es
        (table.map fun r =>
          if r.id == resolveId e.id gen k && r.project_id == pid then
            ⟨r.id, r.project_id, e.question, e.answer, e.tags, e.source,
              e.source_file, e.metadata⟩
          else r) pid gen (if usesGen e.id then k + 1 else k)
      refine ⟨fun h => ih.1 ?_, ?_, ?_, ?_⟩
      · unfold FaqUniqueKeys at h ⊢
        have hkeep : ∀ r : FaqRow,
            ((if r.id == resolveId e.id gen k && r.project_id == pid then
              (⟨r.id, r.project_id, e.question, e.answer, e.tags, e.source,
                e.source_file, e.metadata⟩ : FaqRow)
            else r) : FaqRow).id = r.id ∧
            ((if r.id == resolveId e.id gen k && r.project_id == pid then
              (⟨r.id, r.project_id, e.question, e.answer, e.tags, e.source,
                e.source_file, e.metadata⟩ : FaqRow)
            else r) : FaqRow).project_id = r.project_id := by
          intro r
          by_cases hr : (r.id == resolveId e.id gen k && r.project_id == pid) = true <;>
            simp [hr]
        refine List.Pairwise.map _ ?_ h
        intro a b hab
        rw [(hkeep a).1, (hkeep a).2, (hkeep b).1, (hkeep b).2]
        exact hab
      · simp only [List.length_cons, List.map_cons, resolvedIds]
        have := ih.2.1
        omega
      · simp only [List.map_cons, resolvedIds]
        exact (ih.2.2.1).cons _
      · simp only [List.map_cons, resolvedIds]
        exact (ih.2.2.2).cons₂ _

theorem upsert_kb_articles_props : ∀ (entries : List KbEntry) (table : List KbRow) (pid : String)
    (gen : Nat → String) (k : Nat),
    (KbUniqueKeys table → KbUniqueKeys (upsert_kb_articles table pid entries gen k).2) ∧
    (upsert_kb_articles table pid entries gen k).1.1.length +
      (upsert_kb_articles table pid entries gen k).1.2.length = entries.length ∧
    (upsert_kb_articles table pid entries gen k).1.1.Sublist
      (resolvedIds (entries.map fun e => e.id) gen k) ∧
    (upsert_kb_articles table pid entries gen k).1.2.Sublist
      (resolvedIds (entries.map fun e => e.id) gen k)
  | [], table, pid, gen, k =>
    ⟨fun h => h, rfl, List.nil_sublist _, List.nil_sublist _⟩
  | e :: es, table, pid, gen, k => by
    simp only [upsert_kb_articles]
    by_cases hex : ((table.filter fun r =>
        r.id == resolveId e.id gen k && r.project_id == pid).isEmpty) = true
    · rw [if_pos hex]
      have ih := upsert_kb_articles_props es
        (table ++ [⟨resolveId e.id gen k, pid, e.title, e.content, e.tags, e.source,
          e.source_file, e.metadata⟩]) pid gen (if usesGen e.id then k + 1 else k)
      refine ⟨fun h => ih.1 ?_, ?_, ?_, ?_⟩
      · unfold KbUniqueKeys at h ⊢
        rw [List.pairwise_append]
        refine ⟨h, List.pairwise_singleton _ _, ?_⟩
        intro a ha b hb
        simp only [List.mem_singleton] at hb
        subst hb
        have hnil : table.filter (fun r =>
            r.id == resolveId e.id gen k && r.project_id == pid) = [] := by
          simpa [List.isEmpty_iff] using hex
        have := List.filter_eq_nil_iff.mp hnil a ha
        simp only [Bool.and_eq_true, beq_iff_eq] at this
        rintro ⟨h1, h2⟩
        exact this ⟨h1, h2⟩
      · simp only [List.length_cons, List.map_cons, resolvedIds]
        have := ih.2.1
        omega
      · simp only [List.map_cons, resolvedIds]
        exact (ih.2.2.1).cons₂ _
      · simp only [List.map_cons, resolvedIds]
        exact (ih.2.2.2).cons _
    · rw [if_neg hex]
      have ih := upsert_kb_articles_props es
        (table.map fun r =>
          if r.id == resolveId e.id gen k && r.project_id == pid then
            ⟨r.id, r.project_id, e.title, e.content, e.tags, e.source,
              e.source_file, e.metadata⟩
          else r) pid gen (if usesGen e.id then k + 1 else k)
      refine ⟨fun h => ih.1 ?_, ?_, ?_, ?_⟩
      · unfold KbUniqueKeys at h ⊢
        have hkeep : ∀ r : KbRow,
            ((if r.id == resolveId e.id gen k && r.project_id == pid then
              (⟨r.id, r.project_id, e.title, e.content, e.tags, e.source,
                e.source_file, e.metadata⟩ : KbRow)
            else r) : KbRow).id = r.id ∧
            ((if r.id == resolveId e.id gen k && r.project_id == pid then
              (⟨r.id, r.project_id, e.title, e.content, e.tags, e.source,
                e.source_file, e.metadata⟩ : KbRow)
            else r) : KbRow).project_id = r.project_id := by
          intro r
          by_cases hr : (r.id == resolveId e.id gen k && r.project_id == pid) = true <;>
            simp [hr]
        refine List.Pairwise.map _ ?_ h
        intro a b hab
        rw [(hkeep a).1, (hkeep a).2, (hkeep b).1, (hkeep b).2]
        exact hab
      · simp only [List.length_cons, List.map_cons, resolvedIds]
        have := ih.2.1
        omega
      · simp only [List.map_cons, resolvedIds]
        exact (ih.2.2.1).cons _
      · simp only [List.map_cons, resolvedIds]
        exact (ih.2.2.2).cons₂ _

theorem upsert_faqs_step_insert (table : List FaqRow) (pid : String) (post : List FaqEntry)
    (gen : Nat → String) (k : Nat) (e : FaqEntry) (fid : String)
    (hfid : resolveId e.id gen k = fid)
    (hfresh : ∀ r ∈ table, ¬(r.id = fid ∧ r.project_id = pid)) :
    upsert_faqs table pid (e :: post) gen k =
      ((fid :: (upsert_faqs (table ++ [⟨fid, pid, e.question, e.answer, e.tags, e.source,
            e.source_file, e.metadata⟩]) pid post gen
            (if usesGen e.id then k + 1 else k)).1.1,
        (upsert_faqs (table ++ [⟨fid, pid, e.question, e.answer, e.tags, e.source,
            e.source_file, e.metadata⟩]) pid post gen
            (if usesGen e.id then k + 1 else k)).1.2),
       (upsert_faqs (table ++ [⟨fid, pid, e.question, e.answer, e.tags, e.source,
            e.source_file, e.metadata⟩]) pid post gen
            (if usesGen e.id then k + 1 else k)).2) := by
  have hnil : table.filter (fun r => r.id == fid && r.project_id == pid) = [] := by
    rw [List.filter_eq_nil_iff]
    intro r hr
    simp only [Bool.and_eq_true, beq_iff_eq]
    rintro ⟨h1, h2⟩
    exact hfresh r hr ⟨h1, h2⟩
  simp only [upsert_faqs, hfid, hnil, List.isEmpty_nil, if_true]

theorem upsert_faqs_step_update (table : List FaqRow) (pid : String) (post : List FaqEntry)
    (gen : Nat → String) (k : Nat) (e : FaqEntry) (fid : String)
    (hfid : resolveId e.id gen k = fid)
    (hex : ∃ r ∈ table, r.id = fid ∧ r.project_id = pid) :
    upsert_faqs table pid (e :: post) gen k =
      (((upsert_faqs (table.map fun r =>
            if r.id == fid && r.project_id == pid then
              ⟨r.id, r.project_id, e.question, e.answer, e.tags, e.source,
                e.source_file, e.metadata⟩
            else r) pid post gen (if usesGen e.id then k + 1 else k)).1.1,
        fid :: (upsert_faqs (table.map fun r =>
            if r.id == fid && r.project_id == pid then
              ⟨r.id, r.project_id, e.question, e.answer, e.tags, e.source,
                e.source_file, e.metadata⟩
            else r) pid post gen (if usesGen e.id then k + 1 else k)).1.2),
       (upsert_faqs (table.map fun r =>
            if r.id == fid && r.project_id == pid then
              ⟨r.id, r.project_id, e.question, e.answer, e.tags, e.source,
                e.source_file, e.metadata⟩
            else r) pid post gen (if usesGen e.id then k + 1 else k)).2) := by
  have hne2 : (table.filter fun r => r.id == fid && r.project_id == pid).isEmpty = false := by
    rcases hex with ⟨r, hr, h1, h2⟩
    rcases hl : table.filter (fun r => r.id == fid && r.project_id == pid) with _ | ⟨y, ys⟩
    · exact absurd (hl ▸ List.mem_filter.mpr ⟨hr, by simp [h1, h2]⟩) (List.not_mem_nil r)
    · rw [hl]
      rfl
  simp only [upsert_faqs, hfid, hne2, Bool.false_eq_true, if_false]

theorem genUsed_cons (i : Option String) (ids : List (Option String)) (k : Nat) :
    (if usesGen i then k + 1 else k) + genUsed ids = k + genUsed (i :: ids) := by
  simp only [genUsed, List.countP_cons]
  by_cases h : usesGen i = true
  · simp only [h, if_true]
    omega
  · rw [Bool.not_eq_true] at h
    simp only [h, Bool.false_eq_true, if_false]
    omega

theorem upsert_faqs_append : ∀ (pre post : List FaqEntry) (table : List FaqRow)
    (pid : String) (gen : Nat → String) (k : Nat),
    upsert_faqs table pid (pre ++ post) gen k =
      (((upsert_faqs table pid pre gen k).1.1 ++
          (upsert_faqs (upsert_faqs table pid pre gen k).2 pid post gen
            (k + genUsed (pre.map fun x => x.id))).1.1,
        (upsert_faqs table pid pre gen k).1.2 ++
          (upsert_faqs (upsert_faqs table pid pre gen k).2 pid post gen
            (k + genUsed (pre.map fun x => x.id))).1.2),
       (upsert_faqs (upsert_faqs table pid pre gen k).2 pid post gen
          (k + genUsed (pre.map fun x => x.id))).2)
  | [], post, table, pid, gen, k => by
    simp [upsert_faqs, genUsed]
  | e :: pre1, post, table, pid, gen, k => by
    have ih := upsert_faqs_append pre1 post
    have hk := genUsed_cons e.id (pre1.map fun x => x.id) k
    rw [show ((e :: pre1).map fun x => x.id) = e.id :: (pre1.map fun x => x.id)
      from rfl] at *
    simp only [List.cons_append, upsert_faqs]
    by_cases hex : ((table.filter fun r =>
        r.id == resolveId e.id gen k && r.project_id == pid).isEmpty) = true
    · simp only [hex, if_true, List.append_eq]
      rw [ih]
      rw [hk]
      rfl
    · rw [Bool.not_eq_true] at hex
      simp only [hex, Bool.false_eq_true, if_false, List.append_eq]
      rw [ih]
      rw [hk]
      rfl

theorem upsert_kb_articles_step_insert (table : List KbRow) (pid : String) (post : List KbEntry)
    (gen : Nat → String) (k : Nat) (e : KbEntry) (fid : String)
    (hfid : resolveId e.id gen k = fid)
    (hfresh : ∀ r ∈ table, ¬(r.id = fid ∧ r.project_id = pid)) :
    upsert_kb_articles table pid (e :: post) gen k =
      ((fid :: (upsert_kb_articles (table ++ [⟨fid, pid, e.title, e.content, e.tags, e.source,
            e.source_file, e.metadata⟩]) pid post gen
            (if usesGen e.id then k + 1 else k)).1.1,
        (upsert_kb_articles (table ++ [⟨fid, pid, e.title, e.content, e.tags, e.source,
            e.source_file, e.metadata⟩]) pid post gen
            (if usesGen e.id then k + 1 else k)).1.2),
       (upsert_kb_articles (table ++ [⟨fid, pid, e.title, e.content, e.tags, e.source,
            e.source_file, e.metadata⟩]) pid post gen
            (if usesGen e.id then k + 1 else k)).2) := by
  have hnil : table.filter (fun r => r.id == fid && r.project_id == pid) = [] := by
    rw [List.filter_eq_nil_iff]
    intro r hr
    simp only [Bool.and_eq_true, beq_iff_eq]
    rintro ⟨h1, h2⟩
    exact hfresh r hr ⟨h1, h2⟩
  simp only [upsert_kb_articles, hfid, hnil, List.isEmpty_nil, if_true]

theorem upsert_kb_articles_step_update (table : List KbRow) (pid : String) (post : List KbEntry)
    (gen : Nat → String) (k : Nat) (e : KbEntry) (fid : String)
    (hfid : resolveId e.id gen k = fid)
    (hex : ∃ r ∈ table, r.id = fid ∧ r.project_id = pid) :
    upsert_kb_articles table pid (e :: post) gen k =
      (((upsert_kb_articles (table.map fun r =>
            if r.id == fid && r.project_id == pid then
              ⟨r.id, r.project_id, e.title, e.content, e.tags, e.source,
                e.source_file, e.metadata⟩
            else r) pid post gen (if usesGen e.id then k + 1 else k)).1.1,
        fid :: (upsert_kb_articles (table.map fun r =>
            if r.id == fid && r.project_id == pid then
              ⟨r.id, r.project_id, e.title, e.content, e.tags, e.source,
                e.source_file, e.metadata⟩
            else r) pid post gen (if usesGen e.id then k + 1 else k)).1.2),
       (upsert_kb_articles (table.map fun r =>
            if r.id == fid && r.project_id == pid then
              ⟨r.id, r.project_id, e.title, e.content, e.tags, e.source,
                e.source_file, e.metadata⟩
            else r) pid post gen (if usesGen e.id then k + 1 else k)).2) := by
  have hne2 : (table.filter fun r => r.id == fid && r.project_id == pid).isEmpty = false := by
    rcases hex with ⟨r, hr, h1, h2⟩
    rcases hl : table.filter (fun r => r.id == fid && r.project_id == pid) with _ | ⟨y, ys⟩
    · exact absurd (hl ▸ List.mem_filter.mpr ⟨hr, by simp [h1, h2]⟩) (List.not_mem_nil r)
    · rw [hl]
      rfl
  simp only [upsert_kb_articles, hfid, hne2, Bool.false_eq_true, if_false]

theorem upsert_kb_articles_append : ∀ (pre post : List KbEntry) (table : List KbRow)
    (pid : String) (gen : Nat → String) (k : Nat),
    upsert_kb_articles table pid (pre ++ post) gen k =
      (((upsert_kb_articles table pid pre gen k).1.1 ++
          (upsert_kb_articles (upsert_kb_articles table pid pre gen k).2 pid post gen
            (k + genUsed (pre.map fun x => x.id))).1.1,
        (upsert_kb_articles table pid pre gen k).1.2 ++
          (upsert_kb_articles (upsert_kb_articles table pid pre gen k).2 pid post gen
            (k + genUsed (pre.map fun x => x.id))).1.2),
       (upsert_kb_articles (upsert_kb_articles table pid pre gen k).2 pid post gen
          (k + genUsed (pre.map fun x => x.id))).2)
  | [], post, table, pid, gen, k => by
    simp [upsert_kb_articles, genUsed]
  | e :: pre1, post, table, pid, gen, k => by
    have ih := upsert_kb_articles_append pre1 post
    have hk := genUsed_cons e.id (pre1.map fun x => x.id) k
    rw [show ((e :: pre1).map fun x => x.id) = e.id :: (pre1.map fun x => x.id)
      from rfl] at *
    simp only [List.cons_append, upsert_kb_articles]
    by_cases hex : ((table.filter fun r =>
        r.id == resolveId e.id gen k && r.project_id == pid).isEmpty) = true
    · simp only [hex, if_true, List.append_eq]
      rw [ih]
      rw [hk]
      rfl
    · rw [Bool.not_eq_true] at hex
      simp only [hex, Bool.false_eq_true, if_false, List.append_eq]
      rw [ih]
      rw [hk]
      rfl

/-- Claim C8 counterexample: an entry carrying an unknown id is inserted
under the caller's id, not under a generated one — with the generator
producing `"faq_00000" ++ n` (modelling `faq_{uuid4().hex[:8]}`), the created
partition is `["custom"]`, which no generator output equals. -/
theorem c8_upsert_faqs_counterexample :
    (upsert_faqs [] "p1" [⟨some "custom", "q1", "a1", "", "manual", none, []⟩]
      (fun n => "faq_00000" ++ toString n) 0).1.1 = ["custom"] ∧
    (∀ n : Nat, ("faq_00000" ++ toString n) ≠ "custom") := by
  constructor
  · rfl
  · intro n h
    have hlen := congrArg String.length h
    rw [String.length_append] at hlen
    have h9 : "faq_00000".length = 9 := rfl
    have h6 : "custom".length = 6 := rfl
    omega

/-- Claim C8 (amended): batch upsert processes entries in order; at every
position of every batch (every split `pre ++ e :: post`), an entry whose id
exists within the project at its processing point is updated in place and
its id lands in the updated partition between the prefix's and the suffix's
updated ids; an entry without an id is inserted under exactly one freshly
generated id, and an entry with an unknown id is inserted under its own
caller-supplied id (not a generated one) — in both insert cases the id lands
in the created partition between the prefix's and the suffix's created ids;
no duplicate row is created (the per-project key invariant is preserved),
every entry gets exactly one outcome, and both partitions list ids in input
order.  `upsert_kb_articles` behaves likewise. -/
theorem c8_upsert_batches_spec (table : List FaqRow) (ktable : List KbRow) (pid : String)
    (entries : List FaqEntry) (kentries : List KbEntry)
    (pre post : List FaqEntry) (kpre kpost : List KbEntry)
    (gen : Nat → String) (k : Nat) (e : FaqEntry) (ke : KbEntry) (i : String) :
    (FaqUniqueKeys table → FaqUniqueKeys (upsert_faqs table pid entries gen k).2) ∧
    (upsert_faqs table pid entries gen k).1.1.length +
      (upsert_faqs table pid entries gen k).1.2.length = entries.length ∧
    (upsert_faqs table pid entries gen k).1.1.Sublist
      (resolvedIds (entries.map fun x => x.id) gen k) ∧
    (upsert_faqs table pid entries gen k).1.2.Sublist
      (resolvedIds (entries.map fun x => x.id) gen k) ∧
    (e.id = none →
      (∀ r ∈ (upsert_faqs table pid pre gen k).2,
        ¬(r.id = gen (k + genUsed (pre.map fun x => x.id)) ∧ r.project_id = pid)) →
      upsert_faqs table pid (pre ++ e :: post) gen k =
        (((upsert_faqs table pid pre gen k).1.1 ++
            gen (k + genUsed (pre.map fun x => x.id)) ::
              (upsert_faqs ((upsert_faqs table pid pre gen k).2 ++
                  [⟨gen (k + genUsed (pre.map fun x => x.id)), pid, e.question, e.answer,
                    e.tags, e.source, e.source_file, e.metadata⟩]) pid post gen
                  (k + genUsed (pre.map fun x => x.id) + 1)).1.1,
          (upsert_faqs table pid pre gen k).1.2 ++
            (upsert_faqs ((upsert_faqs table pid pre gen k).2 ++
                [⟨gen (k + genUsed (pre.map fun x => x.id)), pid, e.question, e.answer,
                  e.tags, e.source, e.source_file, e.metadata⟩]) pid post gen
                (k + genUsed (pre.map fun x => x.id) + 1)).1.2),
         (upsert_faqs ((upsert_faqs table pid pre gen k).2 ++
             [⟨gen (k + genUsed (pre.map fun x => x.id)), pid, e.question, e.answer,
               e.tags, e.source, e.source_file, e.metadata⟩]) pid post gen
             (k + genUsed (pre.map fun x => x.id) + 1)).2)) ∧
    (e.id = some i → i ≠ "" →
      (∃ r ∈ (upsert_faqs table pid pre gen k).2, r.id = i ∧ r.project_id = pid) →
      upsert_faqs table pid (pre ++ e :: post) gen k =
        (((upsert_faqs table pid pre gen k).1.1 ++
            (upsert_faqs ((upsert_faqs table pid pre gen k).2.map fun r =>
                if r.id == i && r.project_id == pid then
                  ⟨r.id, r.project_id, e.question, e.answer, e.tags, e.source,
                    e.source_file, e.metadata⟩
                else r) pid post gen (k + genUsed (pre.map fun x => x.id))).1.1,
          (upsert_faqs table pid pre gen k).1.2 ++
            i :: (upsert_faqs ((upsert_faqs table pid pre gen k).2.map fun r =>
                if r.id == i && r.project_id == pid then
                  ⟨r.id, r.project_id, e.question, e.answer, e.tags, e.source,
                    e.source_file, e.metadata⟩
                else r) pid post gen (k + genUsed (pre.map fun x => x.id))).1.2),
         (upsert_faqs ((upsert_faqs table pid pre gen k).2.map fun r =>
             if r.id == i && r.project_id == pid then
               ⟨r.id, r.project_id, e.question, e.answer, e.tags, e.source,
                 e.source_file, e.metadata⟩
             else r) pid post gen (k + genUsed (pre.map fun x => x.id))).2)) ∧
    (e.id = some i → i ≠ "" →
      (∀ r ∈ (upsert_faqs table pid pre gen k).2, ¬(r.id = i ∧ r.project_id = pid)) →
      upsert_faqs table pid (pre ++ e :: post) gen k =
        (((upsert_faqs table pid pre gen k).1.1 ++
            i :: (upsert_faqs ((upsert_faqs table pid pre gen k).2 ++
                [⟨i, pid, e.question, e.answer, e.tags, e.source, e.source_file,
                  e.metadata⟩]) pid post gen
                (k + genUsed (pre.map fun x => x.id))).1.1,
          (upsert_faqs table pid pre gen k).1.2 ++
            (upsert_faqs ((upsert_faqs table pid pre gen k).2 ++
                [⟨i, pid, e.question, e.answer, e.tags, e.source, e.source_file,
                  e.metadata⟩]) pid post gen
                (k + genUsed (pre.map fun x => x.id))).1.2),
         (upsert_faqs ((upsert_faqs table pid pre gen k).2 ++
             [⟨i, pid, e.question, e.answer, e.tags, e.source, e.source_file,
               e.metadata⟩]) pid post gen
             (k + genUsed (pre.map fun x => x.id))).2)) ∧
    (KbUniqueKeys ktable → KbUniqueKeys (upsert_kb_articles ktable pid kentries gen k).2) ∧
    (upsert_kb_articles ktable pid kentries gen k).1.1.length +
      (upsert_kb_articles ktable pid kentries gen k).1.2.length = kentries.length ∧
    (upsert_kb_articles ktable pid kentries gen k).1.1.Sublist
      (resolvedIds (kentries.map fun x => x.id) gen k) ∧
    (upsert_kb_articles ktable pid kentries gen k).1.2.Sublist
      (resolvedIds (kentries.map fun x => x.id) gen k) ∧
    (ke.id = none →
      (∀ r ∈ (upsert_kb_articles ktable pid kpre gen k).2,
        ¬(r.id = gen (k + genUsed (kpre.map fun x => x.id)) ∧ r.project_id = pid)) →
      upsert_kb_articles ktable pid (kpre ++ ke :: kpost) gen k =
        (((upsert_kb_articles ktable pid kpre gen k).1.1 ++
            gen (k + genUsed (kpre.map fun x => x.id)) ::
              (upsert_kb_articles ((upsert_kb_articles ktable pid kpre gen k).2 ++
                  [⟨gen (k + genUsed (kpre.map fun x => x.id)), pid, ke.title, ke.content,
                    ke.tags, ke.source, ke.source_file, ke.metadata⟩]) pid kpost gen
                  (k + genUsed (kpre.map fun x => x.id) + 1)).1.1,
          (upsert_kb_articles ktable pid kpre gen k).1.2 ++
            (upsert_kb_articles ((upsert_kb_articles ktable pid kpre gen k).2 ++
                [⟨gen (k + genUsed (kpre.map fun x => x.id)), pid, ke.title, ke.content,
                  ke.tags, ke.source, ke.source_file, ke.metadata⟩]) pid kpost gen
                (k + genUsed (kpre.map fun x => x.id) + 1)).1.2),
         (upsert_kb_articles ((upsert_kb_articles ktable pid kpre gen k).2 ++
             [⟨gen (k + genUsed (kpre.map fun x => x.id)), pid, ke.title, ke.content,
               ke.tags, ke.source, ke.source_file, ke.metadata⟩]) pid kpost gen
             (k + genUsed (kpre.map fun x => x.id) + 1)).2)) ∧
    (ke.id = some i → i ≠ "" →
      (∃ r ∈ (upsert_kb_articles ktable pid kpre gen k).2, r.id = i ∧ r.project_id = pid) →
      upsert_kb_articles ktable pid (kpre ++ ke :: kpost) gen k =
        (((upsert_kb_articles ktable pid kpre gen k).1.1 ++
            (upsert_kb_articles ((upsert_kb_articles ktable pid kpre gen k).2.map fun r =>
                if r.id == i && r.project_id == pid then
                  ⟨r.id, r.project_id, ke.title, ke.content, ke.tags, ke.source,
                    ke.source_file, ke.metadata⟩
                else r) pid kpost gen (k + genUsed (kpre.map fun x => x.id))).1.1,
          (upsert_kb_articles ktable pid kpre gen k).1.2 ++
            i :: (upsert_kb_articles ((upsert_kb_articles ktable pid kpre gen k).2.map fun r =>
                if r.id == i && r.project_id == pid then
                  ⟨r.id, r.project_id, ke.title, ke.content, ke.tags, ke.source,
                    ke.source_file, ke.metadata⟩
                else r) pid kpost gen (k + genUsed (kpre.map fun x => x.id))).1.2),
         (upsert_kb_articles ((upsert_kb_articles ktable pid kpre gen k).2.map fun r =>
             if r.id == i && r.project_id == pid then
               ⟨r.id, r.project_id, ke.title, ke.content, ke.tags, ke.source,
                 ke.source_file, ke.metadata⟩
             else r) pid kpost gen (k + genUsed (kpre.map fun x => x.id))).2)) ∧
    (ke.id = some i → i ≠ "" →
      (∀ r ∈ (upsert_kb_articles ktable pid kpre gen k).2, ¬(r.id = i ∧ r.project_id = pid)) →
      upsert_kb_articles ktable pid (kpre ++ ke :: kpost) gen k =
        (((upsert_kb_articles ktable pid kpre gen k).1.1 ++
            i :: (upsert_kb_articles ((upsert_kb_articles ktable pid kpre gen k).2 ++
                [⟨i, pid, ke.title, ke.content, ke.tags, ke.source, ke.source_file,
                  ke.metadata⟩]) pid kpost gen
                (k + genUsed (kpre.map fun x => x.id))).1.1,
          (upsert_kb_articles ktable pid kpre gen k).1.2 ++
            (upsert_kb_articles ((upsert_kb_articles ktable pid kpre gen k).2 ++
                [⟨i, pid, ke.title, ke.content, ke.tags, ke.source, ke.source_file,
                  ke.metadata⟩]) pid kpost gen
                (k + genUsed (kpre.map fun x => x.id))).1.2),
         (upsert_kb_articles ((upsert_kb_articles ktable pid kpre gen k).2 ++
             [⟨i, pid, ke.title, ke.content, ke.tags, ke.source, ke.source_file,
               ke.metadata⟩]) pid kpost gen
             (k + genUsed (kpre.map fun x => x.id))).2)) := by
  obtain ⟨hf1, hf2, hf3, hf4⟩ := upsert_faqs_props entries table pid gen k
  obtain ⟨hk1, hk2, hk3, hk4⟩ := upsert_kb_articles_props kentries ktable pid gen k
  refine ⟨hf1, hf2, hf3, hf4, ?_, ?_, ?_, hk1, hk2, hk3, hk4, ?_, ?_, ?_⟩
  · intro hid hfresh
    have huse : usesGen e.id = true := by rw [hid]; rfl
    have hfid : resolveId e.id gen (k + genUsed (pre.map fun x => x.id)) =
        gen (k + genUsed (pre.map fun x => x.id)) := by rw [hid]; rfl
    rw [upsert_faqs_append pre (e :: post) table pid gen k,
      upsert_faqs_step_insert _ pid post gen _ e _ hfid hfresh, huse]
    rfl
  · intro hid hne hexst
    have huse : usesGen e.id = false := by rw [hid]; simp [usesGen, hne]
    have hfid : resolveId e.id gen (k + genUsed (pre.map fun x => x.id)) = i := by
      rw [hid]; simp [resolveId, hne]
    rw [upsert_faqs_append pre (e :: post) table pid gen k,
      upsert_faqs_step_update _ pid post gen _ e i hfid hexst, huse]
    rfl
  · intro hid hne hfresh
    have huse : usesGen e.id = false := by rw [hid]; simp [usesGen, hne]
    have hfid : resolveId e.id gen (k + genUsed (pre.map fun x => x.id)) = i := by
      rw [hid]; simp [resolveId, hne]
    rw [upsert_faqs_append pre (e :: post) table pid gen k,
      upsert_faqs_step_insert _ pid post gen _ e i hfid hfresh, huse]
    rfl
  · intro hid hfresh
    have huse : usesGen ke.id = true := by rw [hid]; rfl
    have hfid : resolveId ke.id gen (k + genUsed (kpre.map fun x => x.id)) =
        gen (k + genUsed (kpre.map fun x => x.id)) := by rw [hid]; rfl
    rw [upsert_kb_articles_append kpre (ke :: kpost) ktable pid gen k,
      upsert_kb_articles_step_insert _ pid kpost gen _ ke _ hfid hfresh, huse]
    rfl
  · intro hid hne hexst
    have huse : usesGen ke.id = false := by rw [hid]; simp [usesGen, hne]
    have hfid : resolveId ke.id gen (k + genUsed (kpre.map fun x => x.id)) = i := by
      rw [hid]; simp [resolveId, hne]
    rw [upsert_kb_articles_append kpre (ke :: kpost) ktable pid gen k,
      upsert_kb_articles_step_update _ pid kpost gen _ ke i hfid hexst, huse]
    rfl
  · intro hid hne hfresh
    have huse : usesGen ke.id = false := by rw [hid]; simp [usesGen, hne]
    have hfid : resolveId ke.id gen (k + genUsed (kpre.map fun x => x.id)) = i := by
      rw [hid]; simp [resolveId, hne]
    rw [upsert_kb_articles_append kpre (ke :: kpost) ktable pid gen k,
      upsert_kb_articles_step_insert _ pid kpost gen _ ke i hfid hfresh, huse]
    rfl

/-- Witness for C8: a one-entry batch without an id against an empty table
creates exactly one FAQ under the generated id. -/
theorem c8_upsert_batches_spec_witness :
    upsert_faqs [] "p1" [⟨none, "q1", "a1", "", "manual", none, []⟩]
      (fun n => "faq_00000" ++ toString n) 0 =
      ((["faq_000000"], []),
        [⟨"faq_000000", "p1", "q1", "a1", "", "manual", none, []⟩]) := by
  have h := (c8_upsert_batches_spec [] [] "p1" [] [] [] [] [] []
    (fun n => "faq_00000" ++ toString n) 0
    ⟨none, "q1", "a1", "", "manual", none, []⟩ ⟨none, "t1", "c1", "", "manual", none, []⟩
    "i").2.2.2.2.1 rfl (by simp [upsert_faqs])
  simpa [upsert_faqs, genUsed] using h

end KBAI
